import Mathlib

/-!
Verification of the lead-generator application (`streamlit_app.py`,
`src/lead_generator/crew.py`) against its natural-language specification.

The development shallowly embeds the data-processing code of the app:
  * a JSON value model (`JVal`) for the result lists produced by
    `json.loads(last_task.raw)`;
  * the usage-metrics ingestion loop (`parseMetrics`, streamlit_app.py
    lines 300-307);
  * the result display pipeline (metrics summary, sort, per-lead display,
    streamlit_app.py lines 153-238);
  * the downloadable report builder (streamlit_app.py lines 246-281)
    together with a model of `json.dumps(·, indent=2)` and of `json.loads`;
  * the run-button input guard (streamlit_app.py lines 110-125);
  * the `LeadOutput` pydantic schema (crew.py lines 16-24);
  * the pricing accumulator (`ModelsPricing`), modelled from the spec
    because `src/utils/pricing.py` is not part of the sources.

Machine integers do not occur: all Python ints are unbounded, so `Int`/`Nat`
are exact; Python float values reached by this code (scores coerced by
`float(...)`) are modelled exactly by `Rat`, which is faithful for the
decimal literals the code manipulates.
-/

namespace LeadGen

/-- A JSON value as produced by `json.loads`.  Numbers are modelled as
integers: the `LeadOutput` schema types every numeric field
(`num_employees`, `score`) as `int`. -/
inductive JVal where
  | null : JVal
  | jbool : Bool → JVal
  | num : Int → JVal
  | str : String → JVal
  | arr : List JVal → JVal
  | obj : List (String × JVal) → JVal
  deriving Repr

/-- `d[k]` lookup in a Python dict (first matching key; Python dicts have
unique keys, insertion-ordered). -/
def jLookup? (fields : List (String × JVal)) (k : String) : Option JVal :=
  match fields with
  | [] => none
  | (k', v) :: rest => if k' = k then some v else jLookup? rest k

/-- Python `d.get(k, default)`. -/
def jGet (fields : List (String × JVal)) (k : String) (default : JVal) : JVal :=
  (jLookup? fields k).getD default

/-- Python `k in d`. -/
def jHasKey (fields : List (String × JVal)) (k : String) : Bool :=
  (jLookup? fields k).isSome

/-- Remove a key from a dict (used to state "a missing field never
raises": erase a field and re-run the consumer). -/
def jErase (fields : List (String × JVal)) (k : String) : List (String × JVal) :=
  fields.filter (fun p => p.1 ≠ k)

/-- Is this value a Python dict (`isinstance(lead, dict)`)? -/
def JVal.isObj : JVal → Bool
  | .obj _ => true
  | _ => false

/-- Python truthiness of a JSON-shaped value (`if kdm:`). -/
def jTruthy : JVal → Bool
  | .null => false
  | .jbool b => b
  | .num n => n ≠ 0
  | .str s => s ≠ ""
  | .arr xs => !xs.isEmpty
  | .obj fields => !fields.isEmpty

/-- Python `for x in v`: lists iterate their elements, strings their
characters, dicts their keys; other values raise `TypeError`. -/
def pyIterate : JVal → Except String (List JVal)
  | .arr xs => .ok xs
  | .str s => .ok (s.data.map (fun c => .str (String.singleton c)))
  | .obj fields => .ok (fields.map (fun p => .str p.1))
  | _ => .error "TypeError: object is not iterable"

/-- Characters Python `str.split()` (no argument) splits on.  (Python also
treats vertical tab and form feed as whitespace; they cannot appear in the
`key=value` metrics format and are not modelled.) -/
def pyIsSpace (c : Char) : Bool :=
  c = ' ' || c = '\t' || c = '\n' || c = '\r'

/-- Worker for `pySplitWs`: split on whitespace runs, accumulating the
current token reversed. -/
def splitWsAux : List Char → List Char → List (List Char)
  | [], acc => if acc.isEmpty then [] else [acc.reverse]
  | c :: cs, acc =>
      if pyIsSpace c then
        if acc.isEmpty then splitWsAux cs [] else acc.reverse :: splitWsAux cs []
      else splitWsAux cs (c :: acc)

/-- Python `s.split()`: split on runs of whitespace, dropping empty
pieces. -/
def pySplitWs (s : String) : List String :=
  (splitWsAux s.data []).map String.mk

/-- Worker for `splitEq`: split at every `=`. -/
def splitEqAux : List Char → List Char → List (List Char)
  | [], acc => [acc.reverse]
  | c :: cs, acc =>
      if c = '=' then acc.reverse :: splitEqAux cs []
      else splitEqAux cs (c :: acc)

/-- Python `item.split("=")`: split at every occurrence of `=`, keeping
empty pieces (one piece exactly when the token holds no `=`). -/
def splitEq (t : String) : List String :=
  (splitEqAux t.data []).map String.mk

/-- One decimal digit of a Python `int` literal. -/
def isAsciiDigit (c : Char) : Bool :=
  '0' ≤ c ∧ c ≤ '9'

/-- Numeric value of a decimal digit list (most significant first). -/
def digitsVal (cs : List Char) : Nat :=
  cs.foldl (fun acc c => acc * 10 + (c.toNat - 48)) 0

/-- Python `int(s)` on a string: strip whitespace, optional sign, then a
nonempty run of decimal digits; anything else raises `ValueError`
(returns `none` here).  Underscore digit grouping and non-ASCII digits
are accepted by Python but never occur in the metrics format and are not
modelled. -/
def pyInt? (s : String) : Option Int :=
  let cs := (s.data.dropWhile pyIsSpace).reverse.dropWhile pyIsSpace |>.reverse
  let (neg, digits) :=
    match cs with
    | '-' :: rest => (true, rest)
    | '+' :: rest => (false, rest)
    | _ => (false, cs)
  if digits ≠ [] ∧ digits.all isAsciiDigit then
    let n : Int := digitsVal digits
    some (if neg then -n else n)
  else
    none

/-- Python `float(s)` on a string: strip, optional sign, decimal digits
with an optional single point (`d+`, `d+.d*`, `.d+`).  Exponents and
`inf`/`nan` are accepted by Python but never occur in score fields and are
not modelled.  The value is exact as a rational. -/
def pyFloatStr? (s : String) : Option Rat :=
  let cs := (s.data.dropWhile pyIsSpace).reverse.dropWhile pyIsSpace |>.reverse
  let (neg, body) :=
    match cs with
    | '-' :: rest => (true, rest)
    | '+' :: rest => (false, rest)
    | _ => (false, cs)
  let intPart := body.takeWhile isAsciiDigit
  let rest := body.dropWhile isAsciiDigit
  let parsed : Option Rat :=
    match rest with
    | [] => if intPart = [] then none else some ((digitsVal intPart : Int) : Rat)
    | '.' :: frac =>
        if frac.all isAsciiDigit ∧ (intPart ≠ [] ∨ frac ≠ []) then
          some (((digitsVal intPart : Int) : Rat) +
            ((digitsVal frac : Int) : Rat) / ((10 : Rat) ^ frac.length))
        else none
    | _ => none
  parsed.map (fun q => if neg then -q else q)

/-- Python `float(v)` on a JSON value: numbers and booleans coerce, numeric
strings parse, everything else (including `None`, lists, dicts) raises. -/
def pyFloat? : JVal → Option Rat
  | .num n => some ((n : Rat))
  | .jbool b => some (if b then 1 else 0)
  | .str s => pyFloatStr? s
  | _ => none

/-- `float(...)` as a raising operation. -/
def pyFloatE (v : JVal) : Except String Rat :=
  match pyFloat? v with
  | some q => .ok q
  | none => .error "ValueError: could not convert value to float"

/-! ## Usage-metrics ingestion (streamlit_app.py lines 296-316)

```python
metrics_dict = \x7b\x7d
for item in parse_string.split():
    if "=" in item:
        key, value = item.split("=")
        try:
            metrics_dict[key] = int(value)
        except ValueError:
            metrics_dict[key] = value
```
-/

/-- A parsed metrics value: an integer when `int(value)` succeeded, the raw
text otherwise. -/
inductive MetricValue where
  | int : Int → MetricValue
  | str : String → MetricValue
  deriving Repr, DecidableEq

/-- Python `d[k] = v` on an insertion-ordered dict: overwrite in place if
the key exists, append otherwise. -/
def dictSet (d : List (String × MetricValue)) (k : String) (v : MetricValue) :
    List (String × MetricValue) :=
  if d.any (fun p => p.1 = k) then
    d.map (fun p => if p.1 = k then (k, v) else p)
  else
    d ++ [(k, v)]

/-- `int(value)`-or-keep-text coercion of one metrics value. -/
def coerceMetric (value : String) : MetricValue :=
  match pyInt? value with
  | some n => .int n
  | none => .str value

/-- The body of the ingestion loop over the whitespace-separated tokens.
`item.split("=")` yields one piece when the token holds no `=` (the
`"=" in item` test fails and the token is skipped), two pieces when it
holds exactly one `=` (the `key, value` unpacking succeeds), and three or
more pieces otherwise — in which case `key, value = item.split("=")`
raises `ValueError`, which the loop does not catch (its `try` only wraps
the `int` coercion). -/
def parseTokens (tokens : List String) (d : List (String × MetricValue)) :
    Except String (List (String × MetricValue)) :=
  match tokens with
  | [] => .ok d
  | t :: ts =>
      match splitEq t with
      | [_] => parseTokens ts d
      | [k, v] => parseTokens ts (dictSet d k (coerceMetric v))
      | _ => .error "ValueError: too many values to unpack"

/-- The whole ingestion function: split the stringified metrics on
whitespace and run the loop (streamlit_app.py lines 297-307). -/
def parseMetrics (s : String) : Except String (List (String × MetricValue)) :=
  parseTokens (pySplitWs s) []

/-- `metrics_dict.get(k, 0)` (streamlit_app.py lines 314-316). -/
def getMetric (d : List (String × MetricValue)) (k : String) : MetricValue :=
  match d with
  | [] => .int 0
  | (k', v) :: rest => if k' = k then v else getMetric rest k

/-- The three token counters extracted from the parsed dict
(streamlit_app.py lines 314-316). -/
def extractTokens (d : List (String × MetricValue)) :
    MetricValue × MetricValue × MetricValue :=
  (getMetric d "prompt_tokens", getMetric d "completion_tokens",
    getMetric d "total_tokens")

/-! ## Result display pipeline (streamlit_app.py lines 153-238)

The results list is `json.loads` output.  The code computes a metrics
summary (`avg_score`, high-quality count), sorts by score descending, and
renders each dict entry; any uncaught exception in this block aborts the
whole display (the `except` at line 240 replaces it with an error dump). -/

/-- `sum(float(lead.get('score', 0)) for lead in results_list if
isinstance(lead, dict))` (line 159); `float` on a non-numeric value
raises. -/
def sumScores : List JVal → Except String Rat
  | [] => .ok 0
  | x :: xs =>
      match x with
      | .obj fields => do
          let q ← pyFloatE (jGet fields "score" (.num 0))
          let rest ← sumScores xs
          .ok (q + rest)
      | _ => sumScores xs

/-- `sum(1 for lead in results_list if isinstance(lead, dict) and
float(lead.get('score', 0)) >= 7)` (line 168). -/
def highQuality : List JVal → Except String Nat
  | [] => .ok 0
  | x :: xs =>
      match x with
      | .obj fields => do
          let q ← pyFloatE (jGet fields "score" (.num 0))
          let rest ← highQuality xs
          .ok (rest + (if 7 ≤ q then 1 else 0))
      | _ => highQuality xs

/-- The sort key of line 173: `float(x.get('score', 0)) if
isinstance(x, dict) else 0`. -/
def scoreKey (x : JVal) : Except String Rat :=
  match x with
  | .obj fields => pyFloatE (jGet fields "score" (.num 0))
  | _ => .ok 0

/-- Decorate every entry with its sort key (Python's `sorted` computes the
key of each element before comparing; a raising key aborts the sort). -/
def keyedScores : List JVal → Except String (List (Rat × JVal))
  | [] => .ok []
  | x :: xs => do
      let k ← scoreKey x
      let rest ← keyedScores xs
      .ok ((k, x) :: rest)

/-- Insert into a descending-sorted keyed list, after every element whose
key is strictly greater: the stable position. -/
def insertDesc (x : Rat × JVal) : List (Rat × JVal) → List (Rat × JVal)
  | [] => [x]
  | y :: ys => if y.1 ≤ x.1 then x :: y :: ys else y :: insertDesc x ys

/-- Stable sort, descending by key.  Python's `sorted(..., reverse=True)`
is guaranteed stable (equal keys keep their original relative order), and
a stable descending sort is extensionally unique, so this insertion sort
is the model of the `sorted` call at line 171. -/
def sortDescStable : List (Rat × JVal) → List (Rat × JVal)
  | [] => []
  | x :: xs => insertDesc x (sortDescStable xs)

/-- `sorted(results_list, key=..., reverse=True)` (lines 171-175). -/
def sortResults (results : List JVal) : Except String (List JVal) := do
  let keyed ← keyedScores results
  .ok ((sortDescStable keyed).map Prod.snd)

/-- The body of the per-lead display (lines 183-234).  Failure points: the
two `float(lead.get('score', 0))` coercions (lines 185 and 214) and the
iteration over `key_decision_makers` (line 227, raising when the value is
present, truthy and not iterable).  Every other access uses `.get` with a
default or an `in`-guard and cannot raise. -/
def displayLead (fields : List (String × JVal)) : Except String Unit := do
  let _score ← pyFloatE (jGet fields "score" (.num 0))
  let _progress ← pyFloatE (jGet fields "score" (.num 0))
  let kdm := if jHasKey fields "key_decision_makers"
             then jGet fields "key_decision_makers" .null
             else .arr []
  if jTruthy kdm then
    let _people ← pyIterate kdm
    .ok ()
  else
    .ok ()

/-- The display loop (lines 178-234): non-dict entries are skipped
(`continue`); dict entries are rendered in order.  Returns the list of
entries actually rendered. -/
def displayLoop : List JVal → Except String (List JVal)
  | [] => .ok []
  | x :: xs =>
      match x with
      | .obj fields => do
          let _ ← displayLead fields
          let rest ← displayLoop xs
          .ok (.obj fields :: rest)
      | _ => displayLoop xs

/-- The whole display phase (lines 153-238): empty results stop early
(`st.stop`, nothing rendered); otherwise metrics, sort, then the display
loop over the sorted list.  An `.error` models an exception reaching the
`except` at line 240, which discards the structured display of every lead
and shows an error message instead. -/
def renderResults (results : List JVal) : Except String (List JVal) :=
  if results.isEmpty then .ok []
  else do
    let s ← sumScores results
    let _avg := s / (results.length : Rat)
    let _hq ← highQuality results
    let sortedList ← sortResults results
    displayLoop sortedList

/-! ## `json.dumps(·, indent=2)` (used at streamlit_app.py line 270)

Modelled character-exactly over `List Char`: default `ensure_ascii=True`
escaping (shorthand escapes, `\uXXXX` for other control and non-ASCII
characters, surrogate pairs above the BMP), two-space indentation, item
separator `",\n" + indent`, key separator `": "`. -/

/-- Lowercase hex digit, as CPython's `json` emits. -/
def hexDigit (n : Nat) : Char :=
  if n < 10 then Char.ofNat (48 + n) else Char.ofNat (87 + n)

/-- A `\uXXXX` escape for a code unit below `0x10000`. -/
def uEscape (n : Nat) : List Char :=
  ['\\', 'u', hexDigit (n / 4096 % 16), hexDigit (n / 256 % 16),
    hexDigit (n / 16 % 16), hexDigit (n % 16)]

/-- `json.dumps` escaping of one character (`ensure_ascii=True`): printable
ASCII other than `"` and `\` passes through; `\b \t \n \f \r` get their
shorthand escapes; every other character becomes `\uXXXX`, with a
surrogate pair above the BMP. -/
def escapeChar (c : Char) : List Char :=
  if c = '"' then ['\\', '"']
  else if c = '\\' then ['\\', '\\']
  else if c = '\n' then ['\\', 'n']
  else if c = '\r' then ['\\', 'r']
  else if c = '\t' then ['\\', 't']
  else if c.toNat = 8 then ['\\', 'b']
  else if c.toNat = 12 then ['\\', 'f']
  else if c.toNat < 32 then uEscape c.toNat
  else if c.toNat < 127 then [c]
  else if c.toNat < 65536 then uEscape c.toNat
  else
    uEscape (55296 + (c.toNat - 65536) / 1024) ++
      uEscape (56320 + (c.toNat - 65536) % 1024)

/-- Escape a whole string body. -/
def escapeStr : List Char → List Char
  | [] => []
  | c :: cs => escapeChar c ++ escapeStr cs

/-- Decimal digit character (`0 ≤ d ≤ 9`). -/
def digitChar : Nat → Char
  | 0 => '0' | 1 => '1' | 2 => '2' | 3 => '3' | 4 => '4'
  | 5 => '5' | 6 => '6' | 7 => '7' | 8 => '8' | _ => '9'

/-- Worker for `natChars`: structural fuel (any fuel above the value
suffices, and the digit count never exceeds the value). -/
def natCharsAux : Nat → Nat → List Char
  | 0, _ => []
  | fuel + 1, n =>
      if n < 10 then [digitChar n]
      else natCharsAux fuel (n / 10) ++ [digitChar (n % 10)]

/-- Decimal digits of a natural number, most significant first. -/
def natChars (n : Nat) : List Char :=
  natCharsAux (n + 1) n

/-- Decimal rendering of a Python `int`. -/
def intChars (n : Int) : List Char :=
  if n < 0 then '-' :: natChars n.natAbs else natChars n.natAbs

/-- Indentation for nesting level `lvl` under `indent=2`. -/
def ind (lvl : Nat) : List Char :=
  List.replicate (2 * lvl) ' '

/-- A JSON string literal. -/
def dumpStr (s : String) : List Char :=
  '"' :: escapeStr s.data ++ ['"']

mutual

/-- `json.dumps(v, indent=2)` at nesting level `lvl`, as a character
list. -/
def dumpsVal : JVal → Nat → List Char
  | .null, _ => ['n', 'u', 'l', 'l']
  | .jbool true, _ => ['t', 'r', 'u', 'e']
  | .jbool false, _ => ['f', 'a', 'l', 's', 'e']
  | .num n, _ => intChars n
  | .str s, _ => dumpStr s
  | .arr [], _ => ['[', ']']
  | .arr (x :: xs), lvl =>
      '[' :: '\n' :: ind (lvl + 1) ++ dumpsVal x (lvl + 1) ++
        dumpsArrTail xs (lvl + 1) ++ '\n' :: ind lvl ++ [']']
  | .obj [], _ => ['\x7b', '\x7d']
  | .obj (f :: fs), lvl =>
      '\x7b' :: '\n' :: ind (lvl + 1) ++ dumpStr f.1 ++ ':' :: ' ' ::
        dumpsVal f.2 (lvl + 1) ++ dumpsObjTail fs (lvl + 1) ++
        '\n' :: ind lvl ++ ['\x7d']

/-- Remaining array items, each preceded by `",\n" + indent`. -/
def dumpsArrTail : List JVal → Nat → List Char
  | [], _ => []
  | x :: xs, lvl =>
      ',' :: '\n' :: ind lvl ++ dumpsVal x lvl ++ dumpsArrTail xs lvl

/-- Remaining object entries, each preceded by `",\n" + indent`. -/
def dumpsObjTail : List (String × JVal) → Nat → List Char
  | [], _ => []
  | f :: fs, lvl =>
      ',' :: '\n' :: ind lvl ++ dumpStr f.1 ++ ':' :: ' ' ::
        dumpsVal f.2 lvl ++ dumpsObjTail fs lvl

end

/-- `json.dumps(v, indent=2)` as a string. -/
def jsonDumps (v : JVal) : String :=
  String.mk (dumpsVal v 0)

/-! ## `json.loads` (used at streamlit_app.py line 145, and the reader of
the report's embedded dump)

A recursive-descent parser over `List Char`, restricted to the grammar the
application's data uses (integer numerals, as in the `LeadOutput` schema).
Recursion is by explicit fuel; `jsonParse` supplies fuel larger than any
value serialized into the input can need. -/

/-- Skip JSON whitespace. -/
def skipWs : List Char → List Char
  | [] => []
  | c :: cs => if pyIsSpace c then skipWs cs else c :: cs

/-- Value of one hex digit. -/
def parseHex (c : Char) : Option Nat :=
  if '0' ≤ c ∧ c ≤ '9' then some (c.toNat - 48)
  else if 'a' ≤ c ∧ c ≤ 'f' then some (c.toNat - 87)
  else if 'A' ≤ c ∧ c ≤ 'F' then some (c.toNat - 55)
  else none

/-- Four hex digits of a `\uXXXX` escape. -/
def parseU4 : List Char → Option (Nat × List Char)
  | a :: b :: c :: d :: rest =>
      match parseHex a, parseHex b, parseHex c, parseHex d with
      | some ha, some hb, some hc, some hd =>
          some (ha * 4096 + hb * 256 + hc * 16 + hd, rest)
      | _, _, _, _ => none
  | _ => none

/-- Decode a shorthand escape character. -/
def escDecode (c : Char) : Option Char :=
  if c = '"' then some '"'
  else if c = '\\' then some '\\'
  else if c = '/' then some '/'
  else if c = 'n' then some '\n'
  else if c = 't' then some '\t'
  else if c = 'r' then some '\r'
  else if c = 'b' then some (Char.ofNat 8)
  else if c = 'f' then some (Char.ofNat 12)
  else none

/-- Parse a string body up to the closing quote, undoing `escapeChar`
(including surrogate pairs).  One unit of fuel per decoded character. -/
def parseStrBody : Nat → List Char → Option (List Char × List Char)
  | 0, _ => none
  | _ + 1, [] => none
  | fuel + 1, c :: cs =>
      if c = '"' then some ([], cs)
      else if c = '\\' then
        match cs with
        | [] => none
        | e :: cs' =>
            if e = 'u' then
              match parseU4 cs' with
              | none => none
              | some (n, rest) =>
                  if 55296 ≤ n ∧ n < 56320 then
                    match rest with
                    | '\\' :: 'u' :: rest2 =>
                        match parseU4 rest2 with
                        | none => none
                        | some (m, rest3) =>
                            if 56320 ≤ m ∧ m < 57344 then
                              (parseStrBody fuel rest3).map fun p =>
                                (Char.ofNat
                                  (65536 + (n - 55296) * 1024 + (m - 56320)) ::
                                  p.1, p.2)
                            else none
                    | _ => none
                  else if 56320 ≤ n ∧ n < 57344 then none
                  else
                    (parseStrBody fuel rest).map fun p =>
                      (Char.ofNat n :: p.1, p.2)
            else
              match escDecode e with
              | some d =>
                  (parseStrBody fuel cs').map fun p => (d :: p.1, p.2)
              | none => none
      else (parseStrBody fuel cs).map fun p => (c :: p.1, p.2)

/-- Consume a run of decimal digits, accumulating their value. -/
def readDigits : List Char → Nat → Nat × List Char
  | [], acc => (acc, [])
  | c :: cs, acc =>
      if isAsciiDigit c then readDigits cs (acc * 10 + (c.toNat - 48))
      else (acc, c :: cs)

/-- Parse an integer numeral (optional minus sign, then digits). -/
def parseNum : List Char → Option (Int × List Char)
  | [] => none
  | c :: cs =>
      if c = '-' then
        match cs with
        | c' :: _ =>
            if isAsciiDigit c' then
              some (-((readDigits cs 0).1 : Int), (readDigits cs 0).2)
            else none
        | [] => none
      else if isAsciiDigit c then
        some (((readDigits (c :: cs) 0).1 : Int), (readDigits (c :: cs) 0).2)
      else none

mutual

/-- Parse one JSON value. -/
def parseVal : Nat → List Char → Option (JVal × List Char)
  | 0, _ => none
  | fuel + 1, input =>
      match skipWs input with
      | [] => none
      | c :: cs =>
          if c = 'n' then
            match cs with
            | 'u' :: 'l' :: 'l' :: rest => some (.null, rest)
            | _ => none
          else if c = 't' then
            match cs with
            | 'r' :: 'u' :: 'e' :: rest => some (.jbool true, rest)
            | _ => none
          else if c = 'f' then
            match cs with
            | 'a' :: 'l' :: 's' :: 'e' :: rest => some (.jbool false, rest)
            | _ => none
          else if c = '"' then
            (parseStrBody fuel cs).map fun p => (.str (String.mk p.1), p.2)
          else if c = '[' then
            match skipWs cs with
            | ']' :: rest => some (.arr [], rest)
            | _ => (parseArrItems fuel cs).map fun p => (.arr p.1, p.2)
          else if c = '\x7b' then
            match skipWs cs with
            | '\x7d' :: rest => some (.obj [], rest)
            | _ => (parseObjFields fuel cs).map fun p => (.obj p.1, p.2)
          else
            (parseNum (c :: cs)).map fun p => (.num p.1, p.2)

/-- Parse the items of a non-empty array, after the opening bracket. -/
def parseArrItems : Nat → List Char → Option (List JVal × List Char)
  | 0, _ => none
  | fuel + 1, s =>
      match parseVal fuel s with
      | none => none
      | some (v, rest) =>
          match skipWs rest with
          | ',' :: rest2 =>
              (parseArrItems fuel rest2).map fun p => (v :: p.1, p.2)
          | ']' :: rest2 => some ([v], rest2)
          | _ => none

/-- Parse the entries of a non-empty object, after the opening brace. -/
def parseObjFields : Nat → List Char → Option (List (String × JVal) × List Char)
  | 0, _ => none
  | fuel + 1, s =>
      match skipWs s with
      | '"' :: cs =>
          match parseStrBody fuel cs with
          | none => none
          | some (k, rest) =>
              match skipWs rest with
              | ':' :: rest2 =>
                  match parseVal fuel rest2 with
                  | none => none
                  | some (v, rest3) =>
                      match skipWs rest3 with
                      | ',' :: rest4 =>
                          (parseObjFields fuel rest4).map fun p =>
                            ((String.mk k, v) :: p.1, p.2)
                      | '\x7d' :: rest4 => some ([(String.mk k, v)], rest4)
                      | _ => none
              | _ => none
      | _ => none

end

/-- `json.loads(s)`: parse one value and require only whitespace after
it. -/
def jsonParse (s : String) : Option JVal :=
  match parseVal (s.length + 1) s.data with
  | some (v, rest) => if skipWs rest = [] then some v else none
  | none => none

/-- The remaining input does not begin with a digit (so a numeral parse
stops at the right place). -/
def headNotDigit : List Char → Prop
  | [] => True
  | c :: _ => isAsciiDigit c = false

mutual

/-- Fuel sufficient for `parseVal` to parse the serialization of `v`. -/
def jweight : JVal → Nat
  | .null => 1
  | .jbool _ => 1
  | .num _ => 1
  | .str s => s.data.length + 2
  | .arr [] => 1
  | .arr (x :: xs) => jweightItems x xs + 1
  | .obj [] => 1
  | .obj (f :: fs) => jweightFields f fs + 1
  termination_by v => sizeOf v
  decreasing_by all_goals (simp_wf; try omega)

/-- Fuel sufficient for `parseArrItems` on the serialized items. -/
def jweightItems : JVal → List JVal → Nat
  | x, [] => jweight x + 1
  | x, y :: ys => jweight x + 1 + jweightItems y ys
  termination_by x xs => 1 + sizeOf x + sizeOf xs
  decreasing_by all_goals (simp_wf <;> omega)

/-- Fuel sufficient for `parseObjFields` on the serialized entries. -/
def jweightFields : String × JVal → List (String × JVal) → Nat
  | (k, v), [] => k.data.length + jweight v + 2
  | (k, v), g :: gs => k.data.length + jweight v + 2 + jweightFields g gs
  termination_by f fs => 1 + sizeOf f + sizeOf fs
  decreasing_by all_goals (simp_wf <;> omega)

end

/-! ## Downloadable report (streamlit_app.py lines 246-281) -/

mutual

/-- Python `repr(v)` of a JSON-shaped value (quotes around strings;
containers in bracketed comma style).  `repr`'s escaping inside nested
strings is not modelled — no claim depends on the body text of the
report. -/
def pyRepr : JVal → String
  | .null => "None"
  | .jbool true => "True"
  | .jbool false => "False"
  | .num n => String.mk (intChars n)
  | .str s => "'" ++ s ++ "'"
  | .arr xs => "[" ++ pyReprItems xs ++ "]"
  | .obj fs => "\x7b" ++ pyReprFields fs ++ "\x7d"

/-- Comma-separated `repr`s of list items. -/
def pyReprItems : List JVal → String
  | [] => ""
  | [x] => pyRepr x
  | x :: xs => pyRepr x ++ ", " ++ pyReprItems xs

/-- Comma-separated `'key': repr(value)` entries of a dict. -/
def pyReprFields : List (String × JVal) → String
  | [] => ""
  | [f] => "'" ++ f.1 ++ "': " ++ pyRepr f.2
  | f :: fs => "'" ++ f.1 ++ "': " ++ pyRepr f.2 ++ ", " ++ pyReprFields fs

end

/-- Python `str(v)` of a JSON-shaped value, as interpolated by the report's
f-strings: a string renders as itself, everything else as its `repr`. -/
def pyStr : JVal → String
  | .str s => s
  | v => pyRepr v

/-- `f"- {person.get('name','N/A')} ({person.get('role','N/A')}):
{person.get('linkedin','N/A')}\n"` for one dict entry of
`key_decision_makers` (lines 262-263); non-dict entries are skipped. -/
def reportPerson (p : JVal) : String :=
  match p with
  | .obj fields =>
      "- " ++ pyStr (jGet fields "name" (.str "N/A")) ++ " (" ++
        pyStr (jGet fields "role" (.str "N/A")) ++ "): " ++
        pyStr (jGet fields "linkedin" (.str "N/A")) ++ "\n"
  | _ => ""

/-- The markdown section for one lead (lines 250-266).  A non-dict entry
raises `AttributeError` at the first `.get` (line 250); a dict entry can
only raise while iterating a truthy, non-iterable
`key_decision_makers`. -/
def reportLead (lead : JVal) : Except String String :=
  match lead with
  | .obj fields => do
      let head :=
        "## " ++ pyStr (jGet fields "company_name" (.str "N/A")) ++ "\n\n" ++
        "- **Annual Revenue:** " ++
          pyStr (jGet fields "annual_revenue" (.str "N/A")) ++ "\n" ++
        "- **Website:** " ++ pyStr (jGet fields "website_url" (.str "N/A")) ++ "\n" ++
        "- **Review:** " ++ pyStr (jGet fields "review" (.str "N/A")) ++ "\n" ++
        "- **Number of Employees:** " ++
          pyStr (jGet fields "num_employees" (.str "N/A")) ++ "\n" ++
        "- **Score:** " ++ pyStr (jGet fields "score" (.str "N/A")) ++ "/10\n\n"
      let kdm := jGet fields "key_decision_makers" (.arr [])
      let kdmSection ←
        if jTruthy kdm then do
          let people ← pyIterate kdm
          .ok ("### Key Decision Makers\n" ++
            String.join (people.map reportPerson) ++ "\n")
        else
          .ok ""
      .ok (head ++ kdmSection ++ "---\n\n")
  | _ => .error "AttributeError: object has no attribute get"

/-- The loop over `results_list` building the report body (lines 249-266). -/
def reportLeads : List JVal → Except String String
  | [] => .ok ""
  | x :: xs => do
      let s ← reportLead x
      let rest ← reportLeads xs
      .ok (s ++ rest)

/-- The marker that introduces the embedded machine-readable dump
(line 269). -/
def rawJsonMarker : String := "\n## Raw JSON Data\n\n```json\n"

/-- The closing fence appended after the dump (line 271). -/
def rawJsonClose : String := "\n```\n"

/-- The whole `try` block building `download_data` (lines 246-271): the
title, the per-lead sections, then the embedded `json.dumps` of the full
results list inside a fenced block. -/
def buildReport (results : List JVal) : Except String String := do
  let body ← reportLeads results
  .ok ("# Lead Generation Report\n\n" ++ body ++
    rawJsonMarker ++ jsonDumps (.arr results) ++ rawJsonClose)

/-- `download_data` as finally handed to the download button: the report,
or — when any exception escaped the build — the error message that
replaces it entirely (lines 273-274). -/
def downloadData (results : List JVal) : String :=
  match buildReport results with
  | .ok d => d
  | .error e => "Error generating report: " ++ e

/-! ## Run-button input guard (streamlit_app.py lines 110-125) -/

/-- The outcome of the run-button handler. -/
inductive RunOutcome where
  | missingInput : RunOutcome
  | missingApiKey : RunOutcome
  | started : String → String → RunOutcome
  deriving Repr, DecidableEq

/-- The run-button handler's guard chain (lines 110-125): empty industry or
country hits `st.error("Please enter an industry and country")` — the
spec's `MissingInputError` — before the crew is even constructed; a
missing API key hits the warning; otherwise `kickoff` is invoked with the
two inputs. -/
def runButtonHandler (industry country : String) (hasApiKey : Bool) :
    RunOutcome :=
  if industry = "" ∨ country = "" then .missingInput
  else if !hasApiKey then .missingApiKey
  else .started industry country

/-- Does an outcome invoke any external capability?  Only the `started`
branch reaches `LeadGenerator().crew()` / `kickoff`. -/
def invokesCapabilities : RunOutcome → Bool
  | .started _ _ => true
  | _ => false

/-! ## `LeadOutput` schema (crew.py lines 16-24)

A pydantic `BaseModel` instance carries every declared field; optional
fields hold `None` when absent from the input.  The structure below is the
shape of such an instance, and `LeadOutput.toDict` its `model_dump`. -/

structure LeadOutput where
  company_name : Option String
  annual_revenue : Option String
  location : Option (List (String × String))
  website_url : Option String
  review : Option String
  num_employees : Option Int
  key_decision_makers : Option (List (List (String × String)))
  score : Option Int

/-- An optional scalar as a JSON value (`None` dumps as `null`). -/
def optJ (f : α → JVal) : Option α → JVal
  | none => .null
  | some a => f a

/-- `model_dump()` of a `LeadOutput`: a dict that always carries all eight
declared keys, in declaration order. -/
def LeadOutput.toDict (r : LeadOutput) : List (String × JVal) :=
  [("company_name", optJ JVal.str r.company_name),
   ("annual_revenue", optJ JVal.str r.annual_revenue),
   ("location",
     optJ (fun l => .obj (l.map fun p => (p.1, JVal.str p.2))) r.location),
   ("website_url", optJ JVal.str r.website_url),
   ("review", optJ JVal.str r.review),
   ("num_employees", optJ JVal.num r.num_employees),
   ("key_decision_makers",
     optJ (fun ds => .arr (ds.map fun d =>
       .obj (d.map fun p => (p.1, JVal.str p.2)))) r.key_decision_makers),
   ("score", optJ JVal.num r.score)]

/-- The eight field names declared by the schema, in order. -/
def leadOutputFields : List String :=
  ["company_name", "annual_revenue", "location", "website_url", "review",
   "num_employees", "key_decision_makers", "score"]

/-! ## Usage accountant -/

/-- Modelled from the spec: `ModelsPricing` lives in `src/utils/pricing.py`,
which is imported by `streamlit_app.py` (line 13) but is not among the
sources.  Per spec §4.3 it accumulates token counts across `track` calls
and prices them with static per-token rates; the rates are the ones the
visible code applies at streamlit_app.py lines 320-321
(`$0.015` per million input tokens, `$0.06` per million output tokens). -/
structure ModelsPricing where
  input_tokens : Nat
  output_tokens : Nat

/-- A fresh accountant: all counters zero. -/
def ModelsPricing.fresh : ModelsPricing := ⟨0, 0⟩

/-- Static per-input-token rate (streamlit_app.py line 320). -/
def rateIn : Rat := (15 : Rat) / 1000 / 1000000

/-- Static per-output-token rate (streamlit_app.py line 321). -/
def rateOut : Rat := (6 : Rat) / 100 / 1000000

/-- Modelled from the spec: `track_usage(input_tokens=…, output_tokens=…)`
accumulates the counters (spec §4.3: "accumulates across multiple `track`
calls"). -/
def track_usage (m : ModelsPricing) (input output : Nat) : ModelsPricing :=
  ⟨m.input_tokens + input, m.output_tokens + output⟩

/-- Modelled from the spec: `get_usage_summary()` returns the counters and
the cost `input_tokens * rate_in + output_tokens * rate_out` (spec §4.3's
cost model). -/
def get_usage_summary (m : ModelsPricing) : Nat × Nat × Rat :=
  (m.input_tokens, m.output_tokens,
    (m.input_tokens : Rat) * rateIn + (m.output_tokens : Rat) * rateOut)

/-- The inline cost computation of streamlit_app.py lines 320-322:
`(input_tokens / 1000000) * 0.015 + (output_tokens / 1000000) * 0.06`
(Python 3 `/` is exact division on these values, represented exactly
here). -/
def inlineTotalCost (input output : Nat) : Rat :=
  ((input : Rat) / 1000000) * ((15 : Rat) / 1000) +
    ((output : Rat) / 1000000) * ((6 : Rat) / 100)

deriving instance DecidableEq for Except

/-! # Theorems -/

/-! Reduction lemmas for `Except` used throughout. -/

@[simp] theorem except_bind_ok {α β ε : Type} (a : α) (f : α → Except ε β) :
    (Except.ok a >>= f) = f a := rfl

@[simp] theorem except_bind_error {α β ε : Type} (e : ε)
    (f : α → Except ε β) :
    ((Except.error e : Except ε α) >>= f) = .error e := rfl

@[simp] theorem except_isOk_ok {α ε : Type} (a : α) :
    (Except.ok a : Except ε α).isOk = true := rfl

@[simp] theorem except_isOk_error {α ε : Type} (e : ε) :
    (Except.error e : Except ε α).isOk = false := rfl

/-! ## Usage-metrics ingestion: C1, C5, C6 -/

/-- The ingestion loop succeeds exactly when every token splits on `=` into
at most two pieces (i.e. contains at most one `=`); a third piece makes the
`key, value` unpacking raise. -/
theorem parseTokens_isOk (ts : List String) (d : List (String × MetricValue)) :
    (parseTokens ts d).isOk = true ↔
      ∀ t ∈ ts, (splitEq t).length = 1 ∨ (splitEq t).length = 2 := by
  induction ts generalizing d with
  | nil => simp [parseTokens, Except.isOk, Except.toBool]
  | cons t ts ih =>
      cases h : splitEq t with
      | nil => simp [parseTokens, h, Except.isOk, Except.toBool]
      | cons a l =>
          cases l with
          | nil => simpa [parseTokens, h] using ih d
          | cons b l' =>
              cases l' with
              | nil =>
                  simpa [parseTokens, h] using ih (dictSet d a (coerceMetric b))
              | cons c l'' =>
                  simp [parseTokens, h, Except.isOk, Except.toBool]

/-- C1 counterexample: on the token `a=b=c` the ingestion loop raises a
`ValueError` (the unguarded `key, value = item.split("=")` unpacking gets
three pieces), so the function does not split on the first `=` only and is
not exception-free. -/
theorem c1_counterexample :
    parseMetrics "a=b=c" = .error "ValueError: too many values to unpack" := by
  rfl

/-- C1 (amended): the ingestion function splits the input on whitespace and
splits each token on every `=` (not only the first); it raises a
`ValueError` exactly when some token contains two or more `=` characters,
and otherwise never raises, coercing each value to `int` and keeping the
raw text when coercion fails. -/
theorem c1_ingestion_no_raise (s : String) :
    (parseMetrics s).isOk = true ↔
      ∀ t ∈ pySplitWs s,
        (splitEq t).length = 1 ∨ (splitEq t).length = 2 :=
  parseTokens_isOk (pySplitWs s) []

/-- C5: ingesting the documented example usage string yields exactly the
four-key mapping, with the three token counts coerced to integers and the
model name kept as text. -/
theorem c5_example_ingestion :
    parseMetrics
        "prompt_tokens=120 completion_tokens=45 total_tokens=165 model=gpt-4" =
      .ok [("prompt_tokens", .int 120), ("completion_tokens", .int 45),
           ("total_tokens", .int 165), ("model", .str "gpt-4")] := by
  rfl

/-- Tokens that split on `=` into a single piece (no `=` at all) are all
skipped, leaving the dict untouched. -/
theorem parseTokens_no_eq (ts : List String) (d : List (String × MetricValue))
    (h : ∀ t ∈ ts, (splitEq t).length = 1) :
    parseTokens ts d = .ok d := by
  induction ts with
  | nil => rfl
  | cons t ts ih =>
      have ht := h t (by simp)
      cases hs : splitEq t with
      | nil => simp [hs] at ht
      | cons a l =>
          cases l with
          | nil => simpa [parseTokens, hs] using ih fun t ht' => h t (by simp [ht'])
          | cons b l' => simp [hs] at ht

/-- C6: ingesting malformed usage text — any input (the empty string
included) none of whose whitespace-separated tokens contains `=` — raises
nothing and yields the empty mapping, from which all three token counters
default to `0`. -/
theorem c6_malformed_yields_zero (s : String)
    (h : ∀ t ∈ pySplitWs s, (splitEq t).length = 1) :
    parseMetrics s = .ok [] ∧
      extractTokens [] = (.int 0, .int 0, .int 0) :=
  ⟨parseTokens_no_eq (pySplitWs s) [] h, rfl⟩

/-- C6 witness: the empty string and an `=`-free string both satisfy the
hypothesis and ingest to the empty mapping with all-zero counters. -/
theorem c6_witness :
    (parseMetrics "" = .ok [] ∧
      extractTokens [] = (.int 0, .int 0, .int 0)) ∧
    (parseMetrics "completion This  is, not ; metrics" = .ok [] ∧
      extractTokens [] = (.int 0, .int 0, .int 0)) :=
  ⟨c6_malformed_yields_zero "" (by decide),
   c6_malformed_yields_zero "completion This  is, not ; metrics" (by decide)⟩

/-! ## Run-button input guard: C4 -/

/-- C4: with an empty industry or country, the run handler reports the
missing input (the spec's `MissingInputError`) and no external capability
is invoked — the crew is never constructed, so there is no partial
execution. -/
theorem c4_missing_input (industry country : String) (hasApiKey : Bool)
    (h : industry = "" ∨ country = "") :
    runButtonHandler industry country hasApiKey = .missingInput ∧
      invokesCapabilities (runButtonHandler industry country hasApiKey) =
        false := by
  rw [runButtonHandler, if_pos h]
  exact ⟨rfl, rfl⟩

/-- C4 witness: empty industry with a non-empty country (and an API key
present) hits the missing-input branch and invokes nothing. -/
theorem c4_witness :
    runButtonHandler "" "Brazil" true = .missingInput ∧
      invokesCapabilities (runButtonHandler "" "Brazil" true) = false :=
  c4_missing_input "" "Brazil" true (Or.inl rfl)

/-! ## Usage accountant: C9 -/

/-- C9: `track(1000, 500)` on a fresh accountant followed by `summary()`
yields `input_tokens = 1000`, `output_tokens = 500`, and a total cost of
`1000 * rate_in + 500 * rate_out` at the static per-token rates.  The
accountant is a pure state transformer, so the result is the same on every
evaluation with these counts. -/
theorem c9_track_then_summary :
    get_usage_summary (track_usage ModelsPricing.fresh 1000 500) =
      (1000, 500, 1000 * rateIn + 500 * rateOut) := by
  simp [get_usage_summary, track_usage, ModelsPricing.fresh]

/-! ## Field-coercion behaviour of the display pipeline: C2 -/

/-- If any dict record's `score` fails float coercion, the `avg_score`
sum (line 159) raises. -/
theorem sumScores_error (results : List JVal) (fields : List (String × JVal))
    (hmem : JVal.obj fields ∈ results)
    (hbad : pyFloat? (jGet fields "score" (.num 0)) = none) :
    (sumScores results).isOk = false := by
  induction results with
  | nil => cases hmem
  | cons x xs ih =>
      rcases List.mem_cons.mp hmem with h | h
      · subst h
        simp [sumScores, pyFloatE, hbad, Except.isOk, Except.toBool, Except.bind]
      · cases x with
        | obj f =>
            cases hf : pyFloatE (jGet f "score" (.num 0)) with
            | error e =>
                simp [sumScores, hf, Except.isOk, Except.toBool, Except.bind]
            | ok q =>
                cases hxs : sumScores xs with
                | error e =>
                    simp [sumScores, hf, hxs, Except.isOk, Except.toBool,
                      Except.bind]
                | ok r =>
                    have := ih h
                    rw [hxs] at this
                    simp [Except.isOk, Except.toBool] at this
        | null => simpa [sumScores] using ih h
        | jbool b => simpa [sumScores] using ih h
        | num n => simpa [sumScores] using ih h
        | str s => simpa [sumScores] using ih h
        | arr l => simpa [sumScores] using ih h

/-- C2 counterexample: a result set holding one lead whose `score` is the
non-numeric string "high" next to a perfectly valid lead.  The display
phase raises at `float(lead.get('score', 0))` (line 159) and the whole
result-set rendering is aborted into the error path — the valid lead is
discarded from the structured display, contradicting "one malformed field
never discards an otherwise-valid lead or aborts processing of the result
set". -/
theorem c2_counterexample :
    renderResults
        [.obj [("company_name", .str "Acme"), ("score", .str "high")],
         .obj [("company_name", .str "Beta"), ("score", .num 9)]] =
      .error "ValueError: could not convert value to float" := by
  rfl

/-- C2 (amended): the display phase does not drop or null a record field
that fails coercion: whenever the result set contains any dict record
whose `score` value fails float coercion, the metrics/display processing
of the entire result set raises and is aborted into the error path (only
non-dict records are skipped silently). -/
theorem c2_coercion_aborts (results : List JVal)
    (fields : List (String × JVal)) (hmem : JVal.obj fields ∈ results)
    (hbad : pyFloat? (jGet fields "score" (.num 0)) = none) :
    (renderResults results).isOk = false := by
  have hne : results.isEmpty = false := by
    cases results with
    | nil => cases hmem
    | cons x xs => rfl
  have hsum := sumScores_error results fields hmem hbad
  cases hs : sumScores results with
  | ok q => rw [hs] at hsum; simp [Except.isOk, Except.toBool] at hsum
  | error e =>
      simp [renderResults, hne, hs, Except.isOk, Except.toBool, Except.bind]

/-- C2 witness: the amended theorem applied to the counterexample list —
the bad lead is a member, its `score` fails coercion, and rendering of the
whole set fails. -/
theorem c2_coercion_aborts_witness :
    JVal.obj [("company_name", .str "Acme"), ("score", .str "high")] ∈
        [JVal.obj [("company_name", .str "Acme"), ("score", .str "high")],
         JVal.obj [("company_name", .str "Beta"), ("score", .num 9)]] ∧
      pyFloat? (jGet [("company_name", .str "Acme"), ("score", .str "high")]
          "score" (.num 0)) = none ∧
      (renderResults
          [.obj [("company_name", .str "Acme"), ("score", .str "high")],
           .obj [("company_name", .str "Beta"), ("score", .num 9)]]).isOk =
        false :=
  ⟨List.mem_cons_self _ _, rfl,
    c2_coercion_aborts _ _ (List.mem_cons_self _ _) rfl⟩

/-! ## Schema shape and missing-field safety: C3 -/

theorem jLookup?_erase_self (fields : List (String × JVal)) (k : String) :
    jLookup? (jErase fields k) k = none := by
  induction fields with
  | nil => rfl
  | cons p fs ih =>
      by_cases h : p.1 = k
      · simpa [jErase, List.filter_cons, h] using ih
      · simpa [jErase, List.filter_cons, jLookup?, h] using ih

theorem jLookup?_erase_ne (fields : List (String × JVal)) (k k' : String)
    (h : k' ≠ k) :
    jLookup? (jErase fields k) k' = jLookup? fields k' := by
  have hkk : ¬(k = k') := fun hh => h hh.symm
  induction fields with
  | nil => rfl
  | cons p fs ih =>
      by_cases hp : p.1 = k
      · simpa [jErase, List.filter_cons, hp, jLookup?, hkk] using ih
      · by_cases hpk : p.1 = k'
        · simp [jErase, List.filter_cons, hp, jLookup?, hpk, h]
        · simpa [jErase, List.filter_cons, hp, jLookup?, hpk] using ih

theorem jGet_erase_self (fields : List (String × JVal)) (k : String)
    (d : JVal) : jGet (jErase fields k) k d = d := by
  simp [jGet, jLookup?_erase_self]

theorem jGet_erase_ne (fields : List (String × JVal)) (k k' : String)
    (d : JVal) (h : k' ≠ k) :
    jGet (jErase fields k) k' d = jGet fields k' d := by
  simp [jGet, jLookup?_erase_ne fields k k' h]

theorem jHasKey_erase_self (fields : List (String × JVal)) (k : String) :
    jHasKey (jErase fields k) k = false := by
  simp [jHasKey, jLookup?_erase_self]

theorem jHasKey_erase_ne (fields : List (String × JVal)) (k k' : String)
    (h : k' ≠ k) :
    jHasKey (jErase fields k) k' = jHasKey fields k' := by
  simp [jHasKey, jLookup?_erase_ne fields k k' h]

/-- The per-lead display succeeds exactly when the `score` value coerces to
float and a present, truthy `key_decision_makers` is iterable. -/
theorem displayLead_isOk_iff (fields : List (String × JVal)) :
    (displayLead fields).isOk = true ↔
      (pyFloat? (jGet fields "score" (.num 0))).isSome = true ∧
        (∀ kdm, kdm = (if jHasKey fields "key_decision_makers"
            then jGet fields "key_decision_makers" .null else .arr []) →
          jTruthy kdm = true → (pyIterate kdm).isOk = true) := by
  unfold displayLead
  cases hf : pyFloat? (jGet fields "score" (.num 0)) with
  | none => simp [pyFloatE, hf]
  | some q =>
      simp only [pyFloatE, hf, except_bind_ok]
      by_cases ht : jTruthy (if jHasKey fields "key_decision_makers"
          then jGet fields "key_decision_makers" .null else .arr []) = true
      · cases hi : pyIterate (if jHasKey fields "key_decision_makers"
            then jGet fields "key_decision_makers" .null else .arr []) with
        | error e => simp [ht, hi]
        | ok people => simp [ht, hi]
      · simp only [Bool.not_eq_true] at ht
        simp [ht]

/-- The per-lead report section succeeds exactly when a truthy
`key_decision_makers` is iterable. -/
theorem reportLead_isOk_iff (fields : List (String × JVal)) :
    (reportLead (.obj fields)).isOk = true ↔
      (∀ kdm, kdm = jGet fields "key_decision_makers" (.arr []) →
        jTruthy kdm = true → (pyIterate kdm).isOk = true) := by
  unfold reportLead
  by_cases ht : jTruthy (jGet fields "key_decision_makers" (.arr [])) = true
  · cases hi : pyIterate (jGet fields "key_decision_makers" (.arr [])) with
    | error e => simp [ht, hi]
    | ok people => simp [ht, hi]
  · simp only [Bool.not_eq_true] at ht
    simp [ht]

/-- C3: (a) every `LeadOutput` value dumps with all eight declared fields
present, in declaration order — never a missing key; and (b)-(d) for every
consumer of a lead dict in the app — the display loop, the report builder
and the score extraction of the metrics/sort phase — removing any field
from a lead the consumer handles without error leaves a lead it still
handles without error: a missing field never raises, it is treated as
unknown via the `.get` defaults and `in`-guards. -/
theorem c3_all_fields_present_missing_never_raises :
    (∀ r : LeadOutput, (LeadOutput.toDict r).map Prod.fst = leadOutputFields) ∧
    (∀ (fields : List (String × JVal)) (k : String),
        (displayLead fields).isOk = true →
        (displayLead (jErase fields k)).isOk = true) ∧
    (∀ (fields : List (String × JVal)) (k : String),
        (reportLead (.obj fields)).isOk = true →
        (reportLead (.obj (jErase fields k))).isOk = true) ∧
    (∀ (fields : List (String × JVal)) (k : String),
        (scoreKey (.obj fields)).isOk = true →
        (scoreKey (.obj (jErase fields k))).isOk = true) := by
  refine ⟨fun r => rfl, ?_, ?_, ?_⟩
  · intro fields k h
    rw [displayLead_isOk_iff] at h ⊢
    obtain ⟨h1, h2⟩ := h
    constructor
    · by_cases hs : ("score" : String) = k
      · rw [← hs, jGet_erase_self]; rfl
      · rw [jGet_erase_ne fields k "score" _ hs]; exact h1
    · intro kdm hk
      by_cases hd : ("key_decision_makers" : String) = k
      · rw [← hd, jHasKey_erase_self] at hk
        simp only [if_neg Bool.false_ne_true] at hk
        rw [hk]
        intro hcon
        cases hcon
      · rw [jHasKey_erase_ne fields k _ hd] at hk
        by_cases hp : jHasKey fields "key_decision_makers" = true
        · rw [if_pos hp, jGet_erase_ne fields k _ _ hd] at hk
          exact h2 kdm (by rw [if_pos hp]; exact hk)
        · simp only [Bool.not_eq_true] at hp
          rw [hp] at hk
          simp only [if_neg Bool.false_ne_true] at hk
          exact h2 kdm (by rw [hp]; simpa using hk)
  · intro fields k h
    rw [reportLead_isOk_iff] at h ⊢
    intro kdm hk
    by_cases hd : ("key_decision_makers" : String) = k
    · rw [← hd, jGet_erase_self] at hk
      rw [hk]
      intro hcon
      cases hcon
    · rw [jGet_erase_ne fields k _ _ hd] at hk
      exact h kdm hk
  · intro fields k h
    by_cases hs : ("score" : String) = k
    · simp only [scoreKey, ← hs, jGet_erase_self]
      rfl
    · simpa only [scoreKey, jGet_erase_ne fields k "score" _ hs] using h

/-- C3 witness: a fully-populated `LeadOutput` dumps the eight keys; a
concrete displayable lead stays displayable (and reportable, and
scoreable) after erasing its `score` and its `key_decision_makers`. -/
theorem c3_witness :
    (LeadOutput.toDict
        ⟨some "Acme", some "$1M", some [("city", "NYC")], some "https://a.io",
          some "Does things", some 12, some [[("name", "A")]], some 7⟩).map
        Prod.fst = leadOutputFields ∧
    (displayLead (jErase
        [("score", .num 7), ("key_decision_makers", .arr [])] "score")).isOk =
      true ∧
    (reportLead (.obj (jErase
        [("score", .num 7), ("key_decision_makers", .arr [])]
        "key_decision_makers"))).isOk = true ∧
    (scoreKey (.obj (jErase [("score", .num 7)] "score"))).isOk = true :=
  ⟨c3_all_fields_present_missing_never_raises.1 _,
   c3_all_fields_present_missing_never_raises.2.1
     [("score", .num 7), ("key_decision_makers", .arr [])] "score" rfl,
   c3_all_fields_present_missing_never_raises.2.2.1
     [("score", .num 7), ("key_decision_makers", .arr [])]
     "key_decision_makers" rfl,
   c3_all_fields_present_missing_never_raises.2.2.2
     [("score", .num 7)] "score" rfl⟩

/-! ## Sort stability: C8 -/

theorem mem_insertDesc (x z : Rat × JVal) (L : List (Rat × JVal)) :
    z ∈ insertDesc x L ↔ z = x ∨ z ∈ L := by
  induction L with
  | nil => simp [insertDesc]
  | cons y ys ih =>
      by_cases h : y.1 ≤ x.1
      · simp [insertDesc, h]
      · simp [insertDesc, h, ih]
        tauto

theorem pairwise_insertDesc (x : Rat × JVal) (L : List (Rat × JVal))
    (h : L.Pairwise (fun a b => b.1 ≤ a.1)) :
    (insertDesc x L).Pairwise (fun a b => b.1 ≤ a.1) := by
  induction L with
  | nil => simp [insertDesc]
  | cons y ys ih =>
      rcases List.pairwise_cons.mp h with ⟨hy, hys⟩
      by_cases hle : y.1 ≤ x.1
      · rw [insertDesc, if_pos hle]
        refine List.pairwise_cons.mpr ⟨?_, h⟩
        intro z hz
        rcases List.mem_cons.mp hz with rfl | hzys
        · exact hle
        · exact le_trans (hy z hzys) hle
      · rw [insertDesc, if_neg hle]
        refine List.pairwise_cons.mpr ⟨?_, ih hys⟩
        intro z hz
        rcases (mem_insertDesc x z ys).mp hz with rfl | hzys
        · exact le_of_lt (not_le.mp hle)
        · exact hy z hzys

theorem pairwise_sortDescStable (L : List (Rat × JVal)) :
    (sortDescStable L).Pairwise (fun a b => b.1 ≤ a.1) := by
  induction L with
  | nil => simp [sortDescStable]
  | cons x xs ih => exact pairwise_insertDesc x (sortDescStable xs) ih

theorem filter_insertDesc (x : Rat × JVal) (L : List (Rat × JVal)) (q : Rat) :
    (insertDesc x L).filter (fun p => decide (p.1 = q)) =
      if x.1 = q then x :: L.filter (fun p => decide (p.1 = q))
      else L.filter (fun p => decide (p.1 = q)) := by
  induction L with
  | nil => by_cases hx : x.1 = q <;> simp [insertDesc, hx]
  | cons y ys ih =>
      by_cases hle : y.1 ≤ x.1
      · rw [insertDesc, if_pos hle]
        by_cases hx : x.1 = q <;> by_cases hy : y.1 = q <;>
          simp [List.filter_cons, hx, hy]
      · rw [insertDesc, if_neg hle]
        have hylt : x.1 < y.1 := not_le.mp hle
        by_cases hx : x.1 = q
        · have hy : ¬(y.1 = q) := by rw [← hx]; exact ne_of_gt hylt
          simp [List.filter_cons, hy, ih, hx]
        · by_cases hy : y.1 = q <;>
            simp [List.filter_cons, hy, ih, hx]

theorem filter_sortDescStable (L : List (Rat × JVal)) (q : Rat) :
    (sortDescStable L).filter (fun p => decide (p.1 = q)) =
      L.filter (fun p => decide (p.1 = q)) := by
  induction L with
  | nil => rfl
  | cons x xs ih =>
      rw [sortDescStable, filter_insertDesc]
      by_cases hx : x.1 = q
      · rw [if_pos hx, ih, List.filter_cons, if_pos (by simpa using hx)]
      · rw [if_neg hx, ih, List.filter_cons, if_neg (by simpa using hx)]

/-- C8: the `sorted(..., key=score, reverse=True)` call is a stable
descending sort: on the decorated list the output is sorted with keys
descending, and for every score value the sub-list of entries carrying
that score is exactly the input's sub-list — equal-scored leads keep their
original relative order. -/
theorem c8_sort_stable_desc (results : List JVal) (l : List (Rat × JVal))
    (h : keyedScores results = .ok l) :
    sortResults results = .ok ((sortDescStable l).map Prod.snd) ∧
      (sortDescStable l).Pairwise (fun a b => b.1 ≤ a.1) ∧
      ∀ q : Rat, (sortDescStable l).filter (fun p => decide (p.1 = q)) =
        l.filter (fun p => decide (p.1 = q)) := by
  refine ⟨?_, pairwise_sortDescStable l, fun q => filter_sortDescStable l q⟩
  rw [sortResults, h, except_bind_ok]

/-- C8 witness: three leads, two sharing score 5.  The decoration
hypothesis holds by computation, the sort puts the 9 first, and the
filtered score-5 entries keep the order A before B. -/
theorem c8_witness :
    keyedScores
        [.obj [("company_name", .str "A"), ("score", .num 5)],
         .obj [("company_name", .str "B"), ("score", .num 5)],
         .obj [("company_name", .str "C"), ("score", .num 9)]] =
      .ok [(((5 : Int) : Rat), .obj [("company_name", .str "A"), ("score", .num 5)]),
           (((5 : Int) : Rat), .obj [("company_name", .str "B"), ("score", .num 5)]),
           (((9 : Int) : Rat), .obj [("company_name", .str "C"), ("score", .num 9)])] ∧
    (sortDescStable
        [(((5 : Int) : Rat), .obj [("company_name", .str "A"), ("score", .num 5)]),
         (((5 : Int) : Rat), .obj [("company_name", .str "B"), ("score", .num 5)]),
         (((9 : Int) : Rat), .obj [("company_name", .str "C"), ("score", .num 9)])]).filter
        (fun p => decide (p.1 = 5)) =
      [(((5 : Int) : Rat), .obj [("company_name", .str "A"), ("score", .num 5)]),
       (((5 : Int) : Rat), .obj [("company_name", .str "B"), ("score", .num 5)]),
       (((9 : Int) : Rat), .obj [("company_name", .str "C"), ("score", .num 9)])].filter
        (fun p => decide (p.1 = 5)) :=
  ⟨rfl,
   (c8_sort_stable_desc
     [.obj [("company_name", .str "A"), ("score", .num 5)],
      .obj [("company_name", .str "B"), ("score", .num 5)],
      .obj [("company_name", .str "C"), ("score", .num 9)]] _ rfl).2.2 5⟩

/-! ## Report vs. display on non-dict entries: C10 -/

/-- The report loop raises as soon as the results list holds any non-dict
entry (its first `.get` raises `AttributeError`). -/
theorem reportLeads_error (results : List JVal)
    (h : ∃ x ∈ results, x.isObj = false) :
    (reportLeads results).isOk = false := by
  induction results with
  | nil => simp at h
  | cons x xs ih =>
      obtain ⟨y, hy, hyobj⟩ := h
      rcases List.mem_cons.mp hy with rfl | hmem
      · cases y with
        | obj f => simp [JVal.isObj] at hyobj
        | null => simp [reportLeads, reportLead]
        | jbool b => simp [reportLeads, reportLead]
        | num n => simp [reportLeads, reportLead]
        | str s => simp [reportLeads, reportLead]
        | arr l => simp [reportLeads, reportLead]
      · cases hr : reportLead x with
        | error e => simp [reportLeads, hr]
        | ok s =>
            have hxs := ih ⟨y, hmem, hyobj⟩
            cases hrs : reportLeads xs with
            | error e => simp [reportLeads, hr, hrs]
            | ok b => rw [hrs] at hxs; simp at hxs

/-- The display loop renders exactly the dict entries, in order. -/
theorem displayLoop_ok (xs l : List JVal) (h : displayLoop xs = .ok l) :
    l = xs.filter (fun x => x.isObj) := by
  induction xs generalizing l with
  | nil =>
      rw [displayLoop] at h
      cases h
      rfl
  | cons x xs ih =>
      cases x with
      | obj f =>
          rw [displayLoop] at h
          cases hd : displayLead f with
          | error e => rw [hd] at h; simp at h
          | ok u =>
              rw [hd] at h
              cases hl : displayLoop xs with
              | error e => rw [hl] at h; simp at h
              | ok rest =>
                  rw [hl] at h
                  simp only [except_bind_ok] at h
                  cases h
                  simp [List.filter_cons, JVal.isObj, ih rest hl]
      | null => simpa [displayLoop, List.filter_cons, JVal.isObj] using ih l h
      | jbool b => simpa [displayLoop, List.filter_cons, JVal.isObj] using ih l h
      | num n => simpa [displayLoop, List.filter_cons, JVal.isObj] using ih l h
      | str s => simpa [displayLoop, List.filter_cons, JVal.isObj] using ih l h
      | arr a => simpa [displayLoop, List.filter_cons, JVal.isObj] using ih l h

/-- Decorating with sort keys keeps the underlying entries. -/
theorem keyedScores_map_snd (results : List JVal) (l : List (Rat × JVal))
    (h : keyedScores results = .ok l) : l.map Prod.snd = results := by
  induction results generalizing l with
  | nil =>
      rw [keyedScores] at h
      cases h
      rfl
  | cons x xs ih =>
      rw [keyedScores] at h
      cases hk : scoreKey x with
      | error e => rw [hk] at h; simp at h
      | ok k =>
          rw [hk] at h
          cases hks : keyedScores xs with
          | error e => rw [hks] at h; simp at h
          | ok rest =>
              rw [hks] at h
              simp only [except_bind_ok] at h
              cases h
              simp [ih rest hks]

theorem insertDesc_perm (x : Rat × JVal) (L : List (Rat × JVal)) :
    List.Perm (insertDesc x L) (x :: L) := by
  induction L with
  | nil => exact List.Perm.refl _
  | cons y ys ih =>
      by_cases h : y.1 ≤ x.1
      · rw [insertDesc, if_pos h]
      · rw [insertDesc, if_neg h]
        exact (ih.cons y).trans (List.Perm.swap x y ys)

theorem sortDescStable_perm (L : List (Rat × JVal)) :
    List.Perm (sortDescStable L) L := by
  induction L with
  | nil => exact List.Perm.refl _
  | cons x xs ih =>
      rw [sortDescStable]
      exact (insertDesc_perm x (sortDescStable xs)).trans (ih.cons x)

/-- C10: whenever the results list holds any non-dict entry, the
downloadable report is replaced entirely by the error message (no lead
sections survive), while the on-screen display — if it completes — has
silently skipped the non-dict entries and rendered exactly the dict
ones. -/
theorem c10_report_error_display_skips (results : List JVal)
    (h : ∃ x ∈ results, x.isObj = false) :
    (∃ e, buildReport results = .error e ∧
        downloadData results = "Error generating report: " ++ e) ∧
    ∀ l, renderResults results = .ok l →
      (∀ x ∈ l, x.isObj = true) ∧
        l.length = (results.filter (fun x => x.isObj)).length := by
  constructor
  · have hrep := reportLeads_error results h
    cases hr : reportLeads results with
    | ok b => rw [hr] at hrep; simp at hrep
    | error e =>
        refine ⟨e, ?_, ?_⟩
        · simp [buildReport, hr]
        · rw [downloadData]
          simp [buildReport, hr]
  · intro l hl
    have hne : results.isEmpty = false := by
      obtain ⟨y, hy, _⟩ := h
      cases results with
      | nil => cases hy
      | cons a as => rfl
    rw [renderResults, hne] at hl
    simp only [Bool.false_eq_true, if_false] at hl
    cases hs : sumScores results with
    | error e => rw [hs] at hl; simp at hl
    | ok s =>
        rw [hs] at hl
        simp only [except_bind_ok] at hl
        cases hq : highQuality results with
        | error e => rw [hq] at hl; simp at hl
        | ok hqv =>
            rw [hq] at hl
            simp only [except_bind_ok] at hl
            rw [sortResults] at hl
            cases hk : keyedScores results with
            | error e => rw [hk] at hl; simp at hl
            | ok keyed =>
                rw [hk] at hl
                simp only [except_bind_ok] at hl
                have hfilter := displayLoop_ok _ _ hl
                constructor
                · intro x hx
                  rw [hfilter] at hx
                  exact List.of_mem_filter hx
                · rw [hfilter]
                  have hperm :
                      List.Perm ((sortDescStable keyed).map Prod.snd) results := by
                    have h1 := (sortDescStable_perm keyed).map Prod.snd
                    rw [keyedScores_map_snd results keyed hk] at h1
                    exact h1
                  exact (hperm.filter (fun x => x.isObj)).length_eq

/-- C10 witness: a results list with a bare string entry.  The report
build fails (replacing the whole report with the error message) while the
display renders exactly the one dict entry. -/
theorem c10_witness :
    (∃ e, buildReport [.str "oops", .obj [("score", .num 5)]] = .error e ∧
        downloadData [.str "oops", .obj [("score", .num 5)]] =
          "Error generating report: " ++ e) ∧
    ((∀ x ∈ ([.obj [("score", .num 5)]] : List JVal), x.isObj = true) ∧
      ([JVal.obj [("score", .num 5)]] : List JVal).length =
        (([.str "oops", .obj [("score", .num 5)]] : List JVal).filter
          (fun x => x.isObj)).length) :=
  ⟨(c10_report_error_display_skips [.str "oops", .obj [("score", .num 5)]]
      ⟨.str "oops", by simp, rfl⟩).1,
   (c10_report_error_display_skips [.str "oops", .obj [("score", .num 5)]]
      ⟨.str "oops", by simp, rfl⟩).2 [.obj [("score", .num 5)]] rfl⟩

/-! ## Round-trip of the embedded dump: C7

`json.loads` applied to `json.dumps(v, indent=2)` recovers `v` exactly.
The proof works character-by-character: hex-escape and decimal round
trips, whitespace skipping, then a mutual induction over the value. -/

/-- A scalar value's codepoint is valid: below the surrogates or above
them and below `0x110000`. -/
theorem char_valid_cases (c : Char) :
    c.toNat < 55296 ∨ (57343 < c.toNat ∧ c.toNat < 1114112) := c.valid

theorem parseHex_hexDigit (m : Nat) (h : m < 16) :
    parseHex (hexDigit m) = some m := by
  interval_cases m <;> decide

theorem parseU4_hexDigits (n : Nat) (h : n < 65536) (rest : List Char) :
    parseU4 (hexDigit (n / 4096 % 16) :: hexDigit (n / 256 % 16) ::
      hexDigit (n / 16 % 16) :: hexDigit (n % 16) :: rest) = some (n, rest) := by
  have h1 : n / 4096 % 16 < 16 := Nat.mod_lt _ (by omega)
  have h2 : n / 256 % 16 < 16 := Nat.mod_lt _ (by omega)
  have h3 : n / 16 % 16 < 16 := Nat.mod_lt _ (by omega)
  have h4 : n % 16 < 16 := Nat.mod_lt _ (by omega)
  rw [parseU4, parseHex_hexDigit _ h1, parseHex_hexDigit _ h2,
    parseHex_hexDigit _ h3, parseHex_hexDigit _ h4]
  simp only [Option.some.injEq, Prod.mk.injEq]
  exact ⟨by omega, trivial⟩

theorem skipWs_cons_space (c : Char) (l : List Char)
    (h : pyIsSpace c = true) : skipWs (c :: l) = skipWs l := by
  rw [skipWs, if_pos h]

theorem skipWs_cons_not_space (c : Char) (l : List Char)
    (h : pyIsSpace c = false) : skipWs (c :: l) = c :: l := by
  rw [skipWs, if_neg (by simp [h])]

theorem skipWs_replicate_space (n : Nat) (l : List Char) :
    skipWs (List.replicate n ' ' ++ l) = skipWs l := by
  induction n with
  | zero => rfl
  | succ m ih =>
      rw [List.replicate_succ, List.cons_append,
        skipWs_cons_space _ _ (by decide), ih]

theorem skipWs_ind (lvl : Nat) (l : List Char) :
    skipWs (ind lvl ++ l) = skipWs l :=
  skipWs_replicate_space (2 * lvl) l

/-- Digit characters are plain: not whitespace, not a JSON delimiter, not
a sign. -/
theorem digitChar_facts (d : Nat) (h : d < 10) :
    pyIsSpace (digitChar d) = false ∧ digitChar d ≠ 'n' ∧
      digitChar d ≠ 't' ∧ digitChar d ≠ 'f' ∧ digitChar d ≠ '"' ∧
      digitChar d ≠ '[' ∧ digitChar d ≠ '\x7b' ∧ digitChar d ≠ '-' ∧
      digitChar d ≠ ']' ∧ digitChar d ≠ '\x7d' ∧ digitChar d ≠ ',' := by
  interval_cases d <;> exact ⟨rfl, by decide, by decide, by decide, by decide,
    by decide, by decide, by decide, by decide, by decide, by decide⟩

theorem digitChar_isDigit (d : Nat) (h : d < 10) :
    isAsciiDigit (digitChar d) = true := by
  interval_cases d <;> decide

theorem digitChar_toNat (d : Nat) (h : d < 10) :
    (digitChar d).toNat - 48 = d := by
  interval_cases d <;> decide

/-- The digit worker ignores surplus fuel. -/
theorem natCharsAux_fuel_irrel (n : Nat) :
    ∀ f1 f2 : Nat, n < f1 → n < f2 →
      natCharsAux f1 n = natCharsAux f2 n := by
  induction n using Nat.strong_induction_on with
  | _ n ih =>
      intro f1 f2 h1 h2
      cases f1 with
      | zero => omega
      | succ g1 =>
          cases f2 with
          | zero => omega
          | succ g2 =>
              rw [natCharsAux, natCharsAux]
              by_cases h : n < 10
              · rw [if_pos h, if_pos h]
              · rw [if_neg h, if_neg h,
                  ih (n / 10) (Nat.div_lt_self (by omega) (by omega)) g1 g2
                    (by omega) (by omega)]

/-- The defining recurrence of `natChars`. -/
theorem natChars_unfold (n : Nat) :
    natChars n = if n < 10 then [digitChar n]
      else natChars (n / 10) ++ [digitChar (n % 10)] := by
  rw [natChars, natCharsAux]
  by_cases h : n < 10
  · rw [if_pos h, if_pos h]
  · rw [if_neg h, if_neg h, natChars,
      natCharsAux_fuel_irrel (n / 10) n (n / 10 + 1)
        (by omega) (by omega)]

theorem natChars_digits (n : Nat) :
    ∀ c ∈ natChars n, isAsciiDigit c = true := by
  induction n using Nat.strong_induction_on with
  | _ n ih =>
      rw [natChars_unfold]
      split
      · next h =>
          intro c hc
          rw [List.mem_singleton] at hc
          subst hc
          exact digitChar_isDigit n h
      · next h =>
          intro c hc
          rcases List.mem_append.mp hc with hm | hm
          · exact ih (n / 10) (Nat.div_lt_self (by omega) (by omega)) c hm
          · rw [List.mem_singleton] at hm
            subst hm
            exact digitChar_isDigit _ (Nat.mod_lt _ (by omega))

theorem natChars_ne_nil (n : Nat) : natChars n ≠ [] := by
  rw [natChars_unfold]
  split <;> simp

/-- One shorthand escape step of the string-body parser. -/
theorem parseStrBody_esc_step (f : Nat) (e d : Char) (tail : List Char)
    (he : ¬(e = 'u')) (hd : escDecode e = some d) :
    parseStrBody (f + 1) ('\\' :: e :: tail) =
      (parseStrBody f tail).map fun p => (d :: p.1, p.2) := by
  rw [parseStrBody]
  simp [he, hd]

/-- One `\uXXXX` escape step (no surrogate). -/
theorem parseStrBody_u_step (f n : Nat) (tail : List Char)
    (hn : n < 65536) (hs1 : ¬(55296 ≤ n ∧ n < 56320))
    (hs2 : ¬(56320 ≤ n ∧ n < 57344)) :
    parseStrBody (f + 1) (uEscape n ++ tail) =
      (parseStrBody f tail).map fun p => (Char.ofNat n :: p.1, p.2) := by
  rw [uEscape]
  simp only [List.cons_append, List.nil_append]
  rw [parseStrBody]
  simp [parseU4_hexDigits n hn tail, hs1, hs2]

/-- One surrogate-pair escape step (a supplementary-plane character). -/
theorem parseStrBody_pair_step (f n : Nat) (tail : List Char)
    (hn : 65536 ≤ n) (hn2 : n < 1114112) :
    parseStrBody (f + 1)
        (uEscape (55296 + (n - 65536) / 1024) ++
          (uEscape (56320 + (n - 65536) % 1024) ++ tail)) =
      (parseStrBody f tail).map fun p => (Char.ofNat n :: p.1, p.2) := by
  have hhex1 : 55296 + (n - 65536) / 1024 < 65536 := by omega
  have hhex2 : 56320 + (n - 65536) % 1024 < 65536 := by omega
  rw [uEscape, uEscape]
  simp only [List.cons_append, List.nil_append]
  rw [parseStrBody]
  simp only [parseU4_hexDigits _ hhex1, parseU4_hexDigits _ hhex2]
  have hs1 : 55296 ≤ 55296 + (n - 65536) / 1024 ∧
      55296 + (n - 65536) / 1024 < 56320 := by omega
  have hs2 : 56320 ≤ 56320 + (n - 65536) % 1024 ∧
      56320 + (n - 65536) % 1024 < 57344 := by omega
  simp [hs1, hs2]
  have harith : 65536 + (n - 65536) / 1024 * 1024 + (n - 65536) % 1024 = n := by
    omega
  rw [harith]

/-- Undoing `escapeChar` character by character: the string-body parser
recovers the original characters up to the closing quote. -/
theorem parseStrBody_escapeStr (s : List Char) :
    ∀ (fuel : Nat) (rest : List Char), s.length < fuel →
      parseStrBody fuel (escapeStr s ++ '"' :: rest) = some (s, rest) := by
  induction s with
  | nil =>
      intro fuel rest hf
      cases fuel with
      | zero => omega
      | succ f =>
          rw [escapeStr, List.nil_append, parseStrBody.eq_def]
          simp
  | cons c cs ih =>
      intro fuel rest hf
      cases fuel with
      | zero => simp at hf
      | succ f =>
          have hfc : cs.length < f := by
            simpa [List.length_cons] using hf
          have hih := ih f rest hfc
          rw [show escapeStr (c :: cs) = escapeChar c ++ escapeStr cs from rfl,
            List.append_assoc, escapeChar]
          by_cases h1 : c = '"'
          · subst h1
            rw [if_pos rfl, List.cons_append, List.cons_append,
              List.nil_append,
              parseStrBody_esc_step f '"' '"' _ (by decide) rfl, hih]
            rfl
          · rw [if_neg h1]
            by_cases h2 : c = '\\'
            · subst h2
              rw [if_pos rfl, List.cons_append, List.cons_append,
                List.nil_append,
                parseStrBody_esc_step f '\\' '\\' _ (by decide) rfl, hih]
              rfl
            · rw [if_neg h2]
              by_cases h3 : c = '\n'
              · subst h3
                rw [if_pos rfl, List.cons_append, List.cons_append,
                  List.nil_append,
                  parseStrBody_esc_step f 'n' '\n' _ (by decide) rfl, hih]
                rfl
              · rw [if_neg h3]
                by_cases h4 : c = '\r'
                · subst h4
                  rw [if_pos rfl, List.cons_append, List.cons_append,
                    List.nil_append,
                    parseStrBody_esc_step f 'r' '\r' _ (by decide) rfl, hih]
                  rfl
                · rw [if_neg h4]
                  by_cases h5 : c = '\t'
                  · subst h5
                    rw [if_pos rfl, List.cons_append, List.cons_append,
                      List.nil_append,
                      parseStrBody_esc_step f 't' '\t' _ (by decide) rfl, hih]
                    rfl
                  · rw [if_neg h5]
                    by_cases h6 : c.toNat = 8
                    · rw [if_pos h6, List.cons_append, List.cons_append,
                        List.nil_append,
                        parseStrBody_esc_step f 'b' (Char.ofNat 8) _
                          (by decide) rfl, hih]
                      have hc : Char.ofNat 8 = c := by
                        rw [← h6, Char.ofNat_toNat]
                      rw [hc]
                      rfl
                    · rw [if_neg h6]
                      by_cases h7 : c.toNat = 12
                      · rw [if_pos h7, List.cons_append, List.cons_append,
                          List.nil_append,
                          parseStrBody_esc_step f 'f' (Char.ofNat 12) _
                            (by decide) rfl, hih]
                        have hc : Char.ofNat 12 = c := by
                          rw [← h7, Char.ofNat_toNat]
                        rw [hc]
                        rfl
                      · rw [if_neg h7]
                        by_cases h8 : c.toNat < 32
                        · rw [if_pos h8,
                            parseStrBody_u_step f c.toNat _ (by omega)
                              (by omega) (by omega), hih, Char.ofNat_toNat]
                          rfl
                        · rw [if_neg h8]
                          by_cases h9 : c.toNat < 127
                          · rw [if_pos h9, List.cons_append, List.nil_append,
                              parseStrBody.eq_def]
                            simp [h1, h2, hih]
                          · rw [if_neg h9]
                            by_cases h10 : c.toNat < 65536
                            · have hval := char_valid_cases c
                              rw [if_pos h10,
                                parseStrBody_u_step f c.toNat _ (by omega)
                                  (by omega) (by omega), hih,
                                Char.ofNat_toNat]
                              rfl
                            · have hval := char_valid_cases c
                              rw [if_neg h10, List.append_assoc,
                                parseStrBody_pair_step f c.toNat _ (by omega)
                                  (by omega), hih, Char.ofNat_toNat]
                              rfl

/-- The digits of `n` start with a digit character. -/
theorem natChars_head (n : Nat) :
    ∃ d rest, natChars n = digitChar d :: rest ∧ d < 10 := by
  induction n using Nat.strong_induction_on with
  | _ n ih =>
      rw [natChars_unfold]
      split
      · next h => exact ⟨n, [], rfl, h⟩
      · next h =>
          obtain ⟨d, rest, hd, hlt⟩ :=
            ih (n / 10) (Nat.div_lt_self (by omega) (by omega))
          exact ⟨d, rest ++ [digitChar (n % 10)], by rw [hd]; rfl, hlt⟩

/-- Reading digits straight through the rendering of `n` accumulates
`n`. -/
theorem readDigits_natChars (n : Nat) :
    ∀ (acc : Nat) (rest : List Char), ∃ k,
      readDigits (natChars n ++ rest) acc =
        readDigits rest (acc * 10 ^ k + n) := by
  induction n using Nat.strong_induction_on with
  | _ n ih =>
      intro acc rest
      rw [natChars_unfold]
      split
      · next h =>
          refine ⟨1, ?_⟩
          rw [List.cons_append, List.nil_append, readDigits,
            if_pos (digitChar_isDigit n h), digitChar_toNat n h, pow_one]
      · next h =>
          obtain ⟨k1, hk1⟩ :=
            ih (n / 10) (Nat.div_lt_self (by omega) (by omega)) acc
              (digitChar (n % 10) :: rest)
          refine ⟨k1 + 1, ?_⟩
          rw [List.append_assoc, List.cons_append, List.nil_append, hk1,
            readDigits, if_pos (digitChar_isDigit _ (Nat.mod_lt _ (by omega))),
            digitChar_toNat _ (Nat.mod_lt _ (by omega))]
          have harith : (acc * 10 ^ k1 + n / 10) * 10 + n % 10 =
              acc * 10 ^ (k1 + 1) + n := by
            rw [pow_succ, Nat.add_mul, Nat.mul_assoc, Nat.add_assoc]
            have : n / 10 * 10 + n % 10 = n := by omega
            rw [this]
          rw [harith]

/-- Reading digits stops at a non-digit. -/
theorem readDigits_stop (rest : List Char) (acc : Nat)
    (h : headNotDigit rest) : readDigits rest acc = (acc, rest) := by
  cases rest with
  | nil => rfl
  | cons c cs =>
      rw [readDigits, if_neg]
      rw [headNotDigit] at h
      simp [h]

/-- Reading the digits of `n` from a zero accumulator yields `n`. -/
theorem readDigits_natChars_zero (n : Nat) (rest : List Char)
    (h : headNotDigit rest) :
    readDigits (natChars n ++ rest) 0 = (n, rest) := by
  obtain ⟨k, hk⟩ := readDigits_natChars n 0 rest
  rw [hk, Nat.zero_mul, Nat.zero_add, readDigits_stop rest n h]

/-- The numeral parser undoes `intChars`. -/
theorem parseNum_intChars (n : Int) (rest : List Char)
    (h : headNotDigit rest) :
    parseNum (intChars n ++ rest) = some (n, rest) := by
  obtain ⟨d, ds, hd, hdlt⟩ := natChars_head n.natAbs
  have hread : readDigits (natChars n.natAbs ++ rest) 0 = (n.natAbs, rest) :=
    readDigits_natChars_zero n.natAbs rest h
  by_cases hneg : n < 0
  · rw [intChars, if_pos hneg, List.cons_append, parseNum.eq_def]
    simp only [if_pos rfl]
    rw [hd, List.cons_append]
    simp only [digitChar_isDigit d hdlt, if_true]
    rw [show digitChar d :: (ds ++ rest) = (digitChar d :: ds) ++ rest from rfl,
      ← hd, hread]
    simp only [Option.some.injEq, Prod.mk.injEq]
    exact ⟨by omega, trivial⟩
  · rw [intChars, if_neg hneg, hd, List.cons_append, parseNum.eq_def]
    simp only [(digitChar_facts d hdlt).2.2.2.2.2.2.2.1, if_false,
      digitChar_isDigit d hdlt, if_true]
    rw [show digitChar d :: (ds ++ rest) = (digitChar d :: ds) ++ rest from rfl,
      ← hd, hread]
    simp only [Option.some.injEq, Prod.mk.injEq]
    exact ⟨by omega, trivial⟩


theorem parseVal_dumps_null (f lvl : Nat) (rest : List Char) :
    parseVal (f + 1) (dumpsVal .null lvl ++ rest) = some (.null, rest) := by
  rw [dumpsVal]
  simp only [List.cons_append, List.nil_append]
  rw [parseVal.eq_def]
  simp [skipWs, pyIsSpace]

theorem parseVal_dumps_bool (f lvl : Nat) (b : Bool) (rest : List Char) :
    parseVal (f + 1) (dumpsVal (.jbool b) lvl ++ rest) =
      some (.jbool b, rest) := by
  cases b <;>
    (rw [dumpsVal]
     simp only [List.cons_append, List.nil_append]
     rw [parseVal.eq_def]
     simp [skipWs, pyIsSpace])


theorem parseVal_dumps_num (f lvl : Nat) (n : Int) (rest : List Char)
    (hrest : headNotDigit rest) :
    parseVal (f + 1) (dumpsVal (.num n) lvl ++ rest) = some (.num n, rest) := by
  rw [dumpsVal]
  obtain ⟨c, cs, hc, hsp, hn, ht, hf, hq, hbr, hbc⟩ :
      ∃ c cs, intChars n ++ rest = c :: cs ∧ pyIsSpace c = false ∧
        ¬(c = 'n') ∧ ¬(c = 't') ∧ ¬(c = 'f') ∧ ¬(c = '"') ∧
        ¬(c = '[') ∧ ¬(c = '\x7b') := by
    obtain ⟨d, ds, hd, hdlt⟩ := natChars_head n.natAbs
    by_cases hneg : n < 0
    · refine ⟨'-', natChars n.natAbs ++ rest, ?_, by decide, by decide,
        by decide, by decide, by decide, by decide, by decide⟩
      rw [intChars, if_pos hneg, List.cons_append]
    · obtain ⟨_, f1, f2, f3, f4, f5, f6, _⟩ := digitChar_facts d hdlt
      refine ⟨digitChar d, ds ++ rest, ?_, (digitChar_facts d hdlt).1,
        f1, f2, f3, f4, f5, f6⟩
      rw [intChars, if_neg hneg, hd, List.cons_append]
  rw [hc, parseVal, skipWs_cons_not_space c cs hsp]
  simp only [hn, ht, hf, hq, hbr, hbc, if_false]
  rw [← hc, parseNum_intChars n rest hrest]
  rfl


theorem parseVal_dumps_str (f lvl : Nat) (s : String) (rest : List Char)
    (hf : s.data.length < f) :
    parseVal (f + 1) (dumpsVal (.str s) lvl ++ rest) = some (.str s, rest) := by
  rw [dumpsVal, dumpStr]
  simp only [List.cons_append, List.append_assoc, List.singleton_append]
  rw [parseVal, skipWs_cons_not_space _ _ (by decide : pyIsSpace '"' = false)]
  simp [parseStrBody_escapeStr s.data f rest hf]

theorem parseVal_dumps_arrnil (f lvl : Nat) (rest : List Char) :
    parseVal (f + 1) (dumpsVal (.arr []) lvl ++ rest) =
      some (.arr [], rest) := by
  rw [dumpsVal]
  simp only [List.cons_append, List.nil_append]
  rw [parseVal]
  simp [skipWs, pyIsSpace]

theorem parseVal_dumps_objnil (f lvl : Nat) (rest : List Char) :
    parseVal (f + 1) (dumpsVal (.obj []) lvl ++ rest) =
      some (.obj [], rest) := by
  rw [dumpsVal]
  simp only [List.cons_append, List.nil_append]
  rw [parseVal]
  simp [skipWs, pyIsSpace]


/-- `parseVal` only looks at its input through `skipWs`. -/
theorem parseVal_congr (fuel : Nat) (inp inp' : List Char)
    (h : skipWs inp = skipWs inp') : parseVal fuel inp = parseVal fuel inp' := by
  cases fuel with
  | zero => rfl
  | succ f => rw [parseVal, parseVal, h]

/-- Every serialized value starts with a non-space character that is not a
closing delimiter. -/
theorem dumpsVal_head (v : JVal) (lvl : Nat) :
    ∃ c cs, dumpsVal v lvl = c :: cs ∧ pyIsSpace c = false ∧
      ¬(c = ']') ∧ ¬(c = '\x7d') := by
  cases v with
  | null => exact ⟨'n', _, rfl, by decide, by decide, by decide⟩
  | jbool b =>
      cases b with
      | true => exact ⟨'t', ['r', 'u', 'e'], rfl, by decide, by decide, by decide⟩
      | false =>
          exact ⟨'f', ['a', 'l', 's', 'e'], rfl, by decide, by decide, by decide⟩
  | num n =>
      rw [dumpsVal]
      obtain ⟨d, ds, hd, hdlt⟩ := natChars_head n.natAbs
      by_cases hneg : n < 0
      · exact ⟨'-', _, by rw [intChars, if_pos hneg], by decide, by decide,
          by decide⟩
      · obtain ⟨hsp, _, _, _, _, _, _, _, hbr, hbc, _⟩ := digitChar_facts d hdlt
        exact ⟨digitChar d, ds, by rw [intChars, if_neg hneg, hd], hsp,
          hbr, hbc⟩
  | str s => exact ⟨'"', _, rfl, by decide, by decide, by decide⟩
  | arr l =>
      cases l with
      | nil => exact ⟨'[', _, rfl, by decide, by decide, by decide⟩
      | cons x xs => exact ⟨'[', _, rfl, by decide, by decide, by decide⟩
  | obj l =>
      cases l with
      | nil => exact ⟨'\x7b', _, rfl, by decide, by decide, by decide⟩
      | cons f fs => exact ⟨'\x7b', _, rfl, by decide, by decide, by decide⟩


theorem jweight_pos (v : JVal) : 1 ≤ jweight v := by
  cases v with
  | null => rw [jweight]
  | jbool b => rw [jweight]
  | num n => rw [jweight]
  | str s => rw [jweight]; omega
  | arr l =>
      cases l with
      | nil => rw [jweight]
      | cons x xs => rw [jweight]; omega
  | obj l =>
      cases l with
      | nil => rw [jweight]
      | cons g gs => rw [jweight]; omega

mutual

theorem parseVal_dumps : ∀ (v : JVal) (lvl fuel : Nat) (rest : List Char),
    jweight v ≤ fuel → headNotDigit rest →
    parseVal fuel (dumpsVal v lvl ++ rest) = some (v, rest)
  | .null, lvl, fuel, rest, hfuel, hrest => by
      cases fuel with
      | zero => rw [jweight] at hfuel; omega
      | succ f => exact parseVal_dumps_null f lvl rest
  | .jbool b, lvl, fuel, rest, hfuel, hrest => by
      cases fuel with
      | zero => rw [jweight] at hfuel; omega
      | succ f => exact parseVal_dumps_bool f lvl b rest
  | .num n, lvl, fuel, rest, hfuel, hrest => by
      cases fuel with
      | zero => rw [jweight] at hfuel; omega
      | succ f => exact parseVal_dumps_num f lvl n rest hrest
  | .str s, lvl, fuel, rest, hfuel, hrest => by
      cases fuel with
      | zero => rw [jweight] at hfuel; omega
      | succ f =>
          rw [jweight] at hfuel
          exact parseVal_dumps_str f lvl s rest (by omega)
  | .arr [], lvl, fuel, rest, hfuel, hrest => by
      cases fuel with
      | zero => rw [jweight] at hfuel; omega
      | succ f => exact parseVal_dumps_arrnil f lvl rest
  | .arr (x :: xs), lvl, fuel, rest, hfuel, hrest => by
      cases fuel with
      | zero => rw [jweight] at hfuel; omega
      | succ f =>
          rw [jweight] at hfuel
          rw [dumpsVal]
          simp only [List.cons_append, List.append_assoc,
            List.singleton_append, List.nil_append]
          rw [parseVal,
            skipWs_cons_not_space _ _
              (by decide : pyIsSpace '[' = false)]
          simp only [show ¬(('[' : Char) = 'n') from by decide,
            show ¬(('[' : Char) = 't') from by decide,
            show ¬(('[' : Char) = 'f') from by decide,
            show ¬(('[' : Char) = '"') from by decide,
            eq_self_iff_true, if_true, if_false]
          obtain ⟨c0, cs0, hc0, hc0sp, hc0br, hc0bc⟩ :=
            dumpsVal_head x (lvl + 1)
          have hskip : skipWs ('\n' :: (ind (lvl + 1) ++
              (dumpsVal x (lvl + 1) ++ (dumpsArrTail xs (lvl + 1) ++
                ('\n' :: (ind lvl ++ (']' :: rest))))))) =
              c0 :: (cs0 ++ (dumpsArrTail xs (lvl + 1) ++
                ('\n' :: (ind lvl ++ (']' :: rest))))) := by
            rw [skipWs_cons_space _ _ (by decide), skipWs_ind, hc0,
              List.cons_append,
              skipWs_cons_not_space _ _ hc0sp]
          rw [hskip]
          split
          · next rest' heq =>
              exact absurd (List.cons_eq_cons.mp heq).1 hc0br
          · next other heq =>
              rw [parseArrItems_dumps x xs lvl f rest (by omega)]
              rfl
  | .obj [], lvl, fuel, rest, hfuel, hrest => by
      cases fuel with
      | zero => rw [jweight] at hfuel; omega
      | succ f => exact parseVal_dumps_objnil f lvl rest
  | .obj ((k, v) :: fs), lvl, fuel, rest, hfuel, hrest => by
      cases fuel with
      | zero => rw [jweight] at hfuel; omega
      | succ f =>
          rw [jweight] at hfuel
          rw [dumpsVal]
          simp only [List.cons_append, List.append_assoc,
            List.singleton_append, List.nil_append]
          rw [parseVal,
            skipWs_cons_not_space _ _
              (by decide : pyIsSpace '\x7b' = false)]
          simp only [show ¬(('\x7b' : Char) = 'n') from by decide,
            show ¬(('\x7b' : Char) = 't') from by decide,
            show ¬(('\x7b' : Char) = 'f') from by decide,
            show ¬(('\x7b' : Char) = '"') from by decide,
            show ¬(('\x7b' : Char) = '[') from by decide,
            eq_self_iff_true, if_true, if_false]
          have hskip : skipWs ('\n' :: (ind (lvl + 1) ++
              (dumpStr (k, v).1 ++ (':' :: ' ' ::
                (dumpsVal (k, v).2 (lvl + 1) ++ (dumpsObjTail fs (lvl + 1) ++
                  ('\n' :: (ind lvl ++ ('\x7d' :: rest))))))))) =
              '"' :: (escapeStr k.data ++ ('"' :: (':' :: ' ' ::
                (dumpsVal v (lvl + 1) ++ (dumpsObjTail fs (lvl + 1) ++
                  ('\n' :: (ind lvl ++ ('\x7d' :: rest)))))))) := by
            rw [skipWs_cons_space _ _ (by decide), skipWs_ind]
            rw [show dumpStr (k, v).1 = '"' :: (escapeStr k.data ++ ['"'])
              from rfl]
            rw [List.cons_append, skipWs_cons_not_space _ _ (by decide)]
            simp [List.append_assoc]
          rw [hskip]
          split
          · next rest' heq =>
              exact absurd (List.cons_eq_cons.mp heq).1
                (by decide : ¬(('"' : Char) = '\x7d'))
          · next other heq =>
              rw [parseObjFields_dumps k v fs lvl f rest (by omega)]
              rfl
  termination_by v _ _ _ _ _ => sizeOf v

theorem parseArrItems_dumps : ∀ (x : JVal) (xs : List JVal)
    (lvl fuel : Nat) (rest : List Char), jweightItems x xs ≤ fuel →
    parseArrItems fuel
        ('\n' :: (ind (lvl + 1) ++ (dumpsVal x (lvl + 1) ++
          (dumpsArrTail xs (lvl + 1) ++
            ('\n' :: (ind lvl ++ (']' :: rest))))))) = some (x :: xs, rest)
  | x, [], lvl, fuel, rest, hfuel => by
      cases fuel with
      | zero =>
          exfalso
          have := jweight_pos x
          rw [jweightItems] at hfuel
          omega
      | succ f =>
          rw [parseArrItems]
          have hv : parseVal f ('\n' :: (ind (lvl + 1) ++
              (dumpsVal x (lvl + 1) ++ (dumpsArrTail [] (lvl + 1) ++
                ('\n' :: (ind lvl ++ (']' :: rest))))))) =
              some (x, dumpsArrTail [] (lvl + 1) ++
                ('\n' :: (ind lvl ++ (']' :: rest)))) := by
            rw [parseVal_congr f _ (dumpsVal x (lvl + 1) ++
                (dumpsArrTail [] (lvl + 1) ++
                  ('\n' :: (ind lvl ++ (']' :: rest)))))
              (by rw [skipWs_cons_space _ _ (by decide), skipWs_ind])]
            refine parseVal_dumps x (lvl + 1) f _ ?_ ?_
            · rw [jweightItems] at hfuel; omega
            · rw [dumpsArrTail]; exact rfl
          rw [hv]
          rw [dumpsArrTail]
          simp only [List.nil_append]
          rw [skipWs_cons_space _ _ (by decide), skipWs_ind,
            skipWs_cons_not_space _ _ (by decide)]
          simp
  | x, y :: ys, lvl, fuel, rest, hfuel => by
      cases fuel with
      | zero =>
          exfalso
          have := jweight_pos x
          rw [jweightItems] at hfuel
          omega
      | succ f =>
          rw [parseArrItems]
          have hv : parseVal f ('\n' :: (ind (lvl + 1) ++
              (dumpsVal x (lvl + 1) ++ (dumpsArrTail (y :: ys) (lvl + 1) ++
                ('\n' :: (ind lvl ++ (']' :: rest))))))) =
              some (x, dumpsArrTail (y :: ys) (lvl + 1) ++
                ('\n' :: (ind lvl ++ (']' :: rest)))) := by
            rw [parseVal_congr f _ (dumpsVal x (lvl + 1) ++
                (dumpsArrTail (y :: ys) (lvl + 1) ++
                  ('\n' :: (ind lvl ++ (']' :: rest)))))
              (by rw [skipWs_cons_space _ _ (by decide), skipWs_ind])]
            refine parseVal_dumps x (lvl + 1) f _ ?_ ?_
            · rw [jweightItems] at hfuel; omega
            · rw [dumpsArrTail]; exact rfl
          rw [hv]
          rw [dumpsArrTail]
          simp only [List.cons_append, List.append_assoc, List.nil_append]
          rw [skipWs_cons_not_space _ _ (by decide)]
          have hrec := parseArrItems_dumps y ys lvl f rest
            (by rw [jweightItems] at hfuel; omega)
          simp [hrec]
  termination_by x xs _ _ _ _ => 1 + sizeOf x + sizeOf xs

theorem parseObjFields_dumps : ∀ (k : String) (v : JVal)
    (fs : List (String × JVal)) (lvl fuel : Nat) (rest : List Char),
    jweightFields (k, v) fs ≤ fuel →
    parseObjFields fuel
        ('\n' :: (ind (lvl + 1) ++ (dumpStr k ++ (':' :: ' ' ::
          (dumpsVal v (lvl + 1) ++ (dumpsObjTail fs (lvl + 1) ++
            ('\n' :: (ind lvl ++ ('\x7d' :: rest))))))))) =
      some ((k, v) :: fs, rest)
  | k, v, [], lvl, fuel, rest, hfuel => by
      cases fuel with
      | zero =>
          exfalso
          have := jweight_pos v
          rw [jweightFields] at hfuel
          omega
      | succ f =>
          rw [jweightFields] at hfuel
          rw [parseObjFields]
          rw [skipWs_cons_space _ _ (by decide), skipWs_ind]
          rw [show dumpStr k = '"' :: (escapeStr k.data ++ ['"']) from rfl]
          simp only [List.cons_append, List.append_assoc,
            List.singleton_append, List.nil_append]
          rw [skipWs_cons_not_space _ _ (by decide)]
          have hkey := parseStrBody_escapeStr k.data f
            (':' :: ' ' :: (dumpsVal v (lvl + 1) ++
              (dumpsObjTail [] (lvl + 1) ++
                ('\n' :: (ind lvl ++ ('\x7d' :: rest)))))) (by omega)
          have hv : parseVal f (' ' :: (dumpsVal v (lvl + 1) ++
              (dumpsObjTail [] (lvl + 1) ++
                ('\n' :: (ind lvl ++ ('\x7d' :: rest)))))) =
              some (v, dumpsObjTail [] (lvl + 1) ++
                ('\n' :: (ind lvl ++ ('\x7d' :: rest)))) := by
            rw [parseVal_congr f _ (dumpsVal v (lvl + 1) ++
                (dumpsObjTail [] (lvl + 1) ++
                  ('\n' :: (ind lvl ++ ('\x7d' :: rest)))))
              (by rw [skipWs_cons_space _ _ (by decide)])]
            refine parseVal_dumps v (lvl + 1) f _ (by omega) ?_
            rw [dumpsObjTail]
            exact rfl
          rw [dumpsObjTail] at hkey hv ⊢
          simp only [List.nil_append] at hkey hv ⊢
          simp [hkey, hv, skipWs_cons_space, skipWs_cons_not_space,
            skipWs_ind, pyIsSpace,
            show ({ data := k.data } : String) = k from rfl]
  | k, v, (k2, v2) :: gs, lvl, fuel, rest, hfuel => by
      cases fuel with
      | zero =>
          exfalso
          have := jweight_pos v
          rw [jweightFields] at hfuel
          omega
      | succ f =>
          have hg := jweight_pos v
          rw [jweightFields] at hfuel
          rw [parseObjFields]
          rw [skipWs_cons_space _ _ (by decide), skipWs_ind]
          rw [show dumpStr k = '"' :: (escapeStr k.data ++ ['"']) from rfl]
          simp only [List.cons_append, List.append_assoc,
            List.singleton_append, List.nil_append]
          rw [skipWs_cons_not_space _ _ (by decide)]
          have hkey := parseStrBody_escapeStr k.data f
            (':' :: ' ' :: (dumpsVal v (lvl + 1) ++
              (dumpsObjTail ((k2, v2) :: gs) (lvl + 1) ++
                ('\n' :: (ind lvl ++ ('\x7d' :: rest)))))) (by omega)
          have hv : parseVal f (' ' :: (dumpsVal v (lvl + 1) ++
              (dumpsObjTail ((k2, v2) :: gs) (lvl + 1) ++
                ('\n' :: (ind lvl ++ ('\x7d' :: rest)))))) =
              some (v, dumpsObjTail ((k2, v2) :: gs) (lvl + 1) ++
                ('\n' :: (ind lvl ++ ('\x7d' :: rest)))) := by
            rw [parseVal_congr f _ (dumpsVal v (lvl + 1) ++
                (dumpsObjTail ((k2, v2) :: gs) (lvl + 1) ++
                  ('\n' :: (ind lvl ++ ('\x7d' :: rest)))))
              (by rw [skipWs_cons_space _ _ (by decide)])]
            refine parseVal_dumps v (lvl + 1) f _ (by omega) ?_
            rw [dumpsObjTail]
            exact rfl
          have hrec := parseObjFields_dumps k2 v2 gs lvl f rest (by omega)
          rw [dumpsObjTail] at hkey hv ⊢
          simp only [List.cons_append, List.append_assoc, List.nil_append]
            at hkey hv ⊢
          simp [hkey, hv, hrec, skipWs_cons_space, skipWs_cons_not_space,
            skipWs_ind, pyIsSpace,
            show ({ data := k.data } : String) = k from rfl]
  termination_by _ v fs _ _ _ => 2 + sizeOf v + sizeOf fs

end


theorem escapeStr_length_le (s : List Char) :
    s.length ≤ (escapeStr s).length := by
  induction s with
  | nil => simp [escapeStr]
  | cons c cs ih =>
      rw [show escapeStr (c :: cs) = escapeChar c ++ escapeStr cs from rfl,
        List.length_append, List.length_cons]
      have h1 : 1 ≤ (escapeChar c).length := by
        rw [escapeChar]
        repeat' split
        all_goals simp [uEscape]
      omega

theorem ind_length (lvl : Nat) : (ind lvl).length = 2 * lvl := by
  simp [ind]

mutual

theorem jweight_le_dumps : ∀ (v : JVal) (lvl : Nat),
    jweight v ≤ (dumpsVal v lvl).length + 1
  | .null, lvl => by rw [jweight]; omega
  | .jbool b, lvl => by rw [jweight]; omega
  | .num n, lvl => by rw [jweight]; omega
  | .str s, lvl => by
      rw [jweight, dumpsVal, dumpStr]
      have := escapeStr_length_le s.data
      simp only [List.length_cons, List.length_append, List.length_singleton]
      omega
  | .arr [], lvl => by rw [jweight]; omega
  | .arr (x :: xs), lvl => by
      rw [jweight, dumpsVal]
      have h := jweightItems_le x xs (lvl + 1)
      simp only [List.length_cons, List.length_append, ind_length,
        List.length_singleton]
      omega
  | .obj [], lvl => by rw [jweight]; omega
  | .obj ((k, v) :: fs), lvl => by
      rw [jweight, dumpsVal]
      have h := jweightFields_le k v fs (lvl + 1)
      simp only [List.length_cons, List.length_append, ind_length,
        List.length_singleton]
      omega
  termination_by v _ => sizeOf v

theorem jweightItems_le : ∀ (x : JVal) (xs : List JVal) (lvl : Nat),
    jweightItems x xs ≤
      (dumpsVal x lvl).length + (dumpsArrTail xs lvl).length + 2
  | x, [], lvl => by
      rw [jweightItems, dumpsArrTail]
      have := jweight_le_dumps x lvl
      simp only [List.length_nil]
      omega
  | x, y :: ys, lvl => by
      rw [jweightItems, dumpsArrTail]
      have h1 := jweight_le_dumps x lvl
      have h2 := jweightItems_le y ys lvl
      simp only [List.length_cons, List.length_append, ind_length]
      omega
  termination_by x xs _ => 1 + sizeOf x + sizeOf xs

theorem jweightFields_le : ∀ (k : String) (v : JVal)
    (fs : List (String × JVal)) (lvl : Nat),
    jweightFields (k, v) fs ≤
      (dumpStr k).length + (dumpsVal v lvl).length +
        (dumpsObjTail fs lvl).length + 4
  | k, v, [], lvl => by
      rw [jweightFields, dumpsObjTail, dumpStr]
      have h1 := jweight_le_dumps v lvl
      have h2 := escapeStr_length_le k.data
      simp only [List.length_cons, List.length_append, List.length_nil,
        List.length_singleton]
      omega
  | k, v, (k2, v2) :: gs, lvl => by
      rw [jweightFields, dumpsObjTail]
      have h1 := jweight_le_dumps v lvl
      have h2 := escapeStr_length_le k.data
      have h3 := jweightFields_le k2 v2 gs lvl
      simp only [dumpStr, List.length_cons, List.length_append, ind_length,
        List.length_singleton] at h3 ⊢
      omega
  termination_by _ v fs _ => 2 + sizeOf v + sizeOf fs

end

/-- `json.loads` undoes `json.dumps(·, indent=2)` exactly. -/
theorem jsonParse_dumps (v : JVal) : jsonParse (jsonDumps v) = some v := by
  rw [jsonParse, jsonDumps]
  have h := parseVal_dumps v 0 ((dumpsVal v 0).length + 1) []
    (le_trans (jweight_le_dumps v 0) (by omega)) trivial
  rw [List.append_nil] at h
  rw [show (String.mk (dumpsVal v 0)).data = dumpsVal v 0 from rfl,
    show (String.mk (dumpsVal v 0)).length = (dumpsVal v 0).length from rfl, h]
  simp [skipWs]

/-- C7: whenever the report build succeeds, the downloadable report is
exactly the human-readable body followed by the embedded machine-readable
dump — `json.dumps(results_list, indent=2)` inside the fenced block — and
parsing that dump back reproduces the original lead sequence exactly,
field for field: the round-trip identity over the export function. -/
theorem c7_report_embeds_roundtrip_dump (results : List JVal) (body : String)
    (h : reportLeads results = .ok body) :
    downloadData results =
      "# Lead Generation Report\n\n" ++ body ++ rawJsonMarker ++
        jsonDumps (.arr results) ++ rawJsonClose ∧
    jsonParse (jsonDumps (.arr results)) = some (.arr results) := by
  constructor
  · have hb : buildReport results =
        .ok ("# Lead Generation Report\n\n" ++ body ++ rawJsonMarker ++
          jsonDumps (.arr results) ++ rawJsonClose) := by
      rw [buildReport, h, except_bind_ok]
    rw [downloadData, hb]
  · exact jsonParse_dumps (.arr results)

/-- C7 witness: a one-lead result list; the report build succeeds by
computation and the theorem yields the embedded-dump equation and the
parse-back identity. -/
theorem c7_witness :
    downloadData [.obj [("company_name", .str "Acme"), ("score", .num 7)]] =
      "# Lead Generation Report\n\n" ++
        "## Acme\n\n- **Annual Revenue:** N/A\n- **Website:** N/A\n- **Review:** N/A\n- **Number of Employees:** N/A\n- **Score:** 7/10\n\n---\n\n" ++
        rawJsonMarker ++
        jsonDumps (.arr [.obj [("company_name", .str "Acme"),
          ("score", .num 7)]]) ++ rawJsonClose ∧
    jsonParse (jsonDumps (.arr [.obj [("company_name", .str "Acme"),
        ("score", .num 7)]])) =
      some (.arr [.obj [("company_name", .str "Acme"), ("score", .num 7)]]) :=
  c7_report_embeds_roundtrip_dump
    [.obj [("company_name", .str "Acme"), ("score", .num 7)]]
    "## Acme\n\n- **Annual Revenue:** N/A\n- **Website:** N/A\n- **Review:** N/A\n- **Number of Employees:** N/A\n- **Score:** 7/10\n\n---\n\n"
    (by decide)

end LeadGen
